import Mathlib

set_option maxHeartbeats 4000000

/-!
# Verification of the flashcard-generator orchestration core

This file is a shallow embedding, in Lean 4, of the core logic of
`src/app/api/generate-flashcards/route.ts` from the flashcard-generator
repository: the card store (`applyFlashcardOperations`), the directive
parser (`extractJSON` and `processAgentResponse` with their regular
expressions transcribed as explicit scanners), the round / hand-off-chain
turn engine, and the streaming session controller, together with theorems
about the specified properties.

Modelling conventions:
* JavaScript objects whose fields may be absent are embedded as structures
  of `Option`-typed fields (`none` = property absent / `undefined`).
  An explicitly `undefined`-valued property is identified with an absent
  one; the operation payloads reaching these functions come from
  `JSON.parse`, which never produces `undefined`-valued properties.
* The nondeterministic id generator
  (`Date.now().toString() + Math.random().toString(36).substr(2, 9)`) is
  embedded as an explicit supply `gen : Nat → String`, consumed once per
  executed `add` operation.
* Fallible JavaScript computations (`JSON.parse`) return `Except`;
  `try`/`catch` blocks are embedded by matching on the `Except` value.
* Progress percentages carried by events (floating-point arithmetic in the
  source) are elided from event payloads: no verified property mentions
  them.
-/

namespace FlashcardGen

/-- JS truthiness of a possibly-absent string field
(`undefined` and `""` are falsy, every other string truthy). -/
def strTruthy : Option String → Bool
  | none => false
  | some s => s ≠ ""

/-- A flashcard object as it exists at runtime: every field optional
(`interface Flashcard` marks `question`/`answer` required, but the values
reaching the store come from unvalidated `JSON.parse` output, and `edit`
payloads are deliberately partial). -/
structure Flashcard where
  question : Option String := none
  answer : Option String := none
  tags : Option (List String) := none
  notes : Option String := none
  id : Option String := none
deriving Repr, DecidableEq, Inhabited

/-- One field of a JS object spread `{ ...base, ...patch }`:
a field present on `patch` overwrites, an absent one falls through. -/
def spreadField {α : Type} (base patch : Option α) : Option α :=
  match patch with
  | some v => some v
  | none => base

/-- JS object spread `{ ...base, ...patch }` on two flashcard objects
(the merge performed by the `edit` branch of `applyFlashcardOperations`). -/
def spreadCards (base patch : Flashcard) : Flashcard where
  question := spreadField base.question patch.question
  answer := spreadField base.answer patch.answer
  tags := spreadField base.tags patch.tags
  notes := spreadField base.notes patch.notes
  id := spreadField base.id patch.id

/-- `interface FlashcardOperation` — `type` is kept as a raw string since
the runtime value is whatever the model emitted; only the literals
`"add"`, `"edit"`, `"delete"` select a branch. -/
structure FlashcardOperation where
  type : String
  flashcard : Option Flashcard := none
  flashcard_id : Option String := none
  reason : Option String := none
deriving Repr, DecidableEq

/-- Accumulator of the `operations.forEach` loop in
`applyFlashcardOperations`: the working copy `updated`, the `appliedOps`
log, and how many fresh ids have been drawn from the supply. -/
structure ApplyState where
  updated : List Flashcard
  appliedOps : List FlashcardOperation
  genIdx : Nat
deriving Repr, DecidableEq

/-- `card.id === op.flashcard_id` (strict equality of two possibly-absent
string fields; `undefined === s` is `false` for every string `s`,
`undefined === undefined` is `true`). -/
def idEq (a b : Option String) : Bool :=
  match a, b with
  | some x, some y => x = y
  | none, none => true
  | _, _ => false

/-- `updated.findIndex(...)` — index of the first element satisfying `p`,
or `none` for `-1`. -/
def jsFindIndex {α : Type} (p : α → Bool) : List α → Option Nat
  | [] => none
  | a :: as => if p a then some 0 else (jsFindIndex p as).map (· + 1)

/-- One iteration of the `operations.forEach(op => ...)` body in
`applyFlashcardOperations` (route.ts lines 277–293).  The three guarded
branches are the source's `if` / `else if` chain; an operation matching no
branch leaves the state untouched. -/
def applyOp (gen : Nat → String) (st : ApplyState) (op : FlashcardOperation) :
    ApplyState :=
  if op.type = "add" ∧ op.flashcard.isSome then
    match op.flashcard with
    | some fc =>
        -- const id = Date.now().toString() + Math.random()...  (fresh supply)
        -- const newCard = { ...op.flashcard, id };
        let id := gen st.genIdx
        let newCard := { fc with id := some id }
        { updated := st.updated ++ [newCard]
          appliedOps := st.appliedOps ++ [{ op with flashcard := some newCard }]
          genIdx := st.genIdx + 1 }
    | none => st
  else if op.type = "edit" ∧ strTruthy op.flashcard_id ∧ op.flashcard.isSome then
    match op.flashcard with
    | some fc =>
        match jsFindIndex (fun card => idEq card.id op.flashcard_id) st.updated with
        | some index =>
            { st with
              updated := st.updated.set index
                (spreadCards (st.updated.getD index default) fc)
              appliedOps := st.appliedOps ++ [op] }
        | none => st
    | none => st
  else if op.type = "delete" ∧ strTruthy op.flashcard_id then
    { st with
      updated := st.updated.filter (fun card => !(idEq card.id op.flashcard_id))
      appliedOps := st.appliedOps ++ [op] }
  else st

/-- Result record of `applyFlashcardOperations`. -/
structure ApplyResult where
  flashcards : List Flashcard
  appliedOperations : List FlashcardOperation
deriving Repr, DecidableEq

/-- `applyFlashcardOperations(flashcards, operations)` (route.ts 273–296),
parameterised by the fresh-id supply `gen`. -/
def applyFlashcardOperations (gen : Nat → String) (flashcards : List Flashcard)
    (operations : List FlashcardOperation) : ApplyResult :=
  let final := operations.foldl (applyOp gen) ⟨flashcards, [], 0⟩
  ⟨final.updated, final.appliedOps⟩

/-! ## String scanning primitives

The source detects directives with JavaScript regular expressions and
`String.prototype.includes` / `toLowerCase`.  These are transcribed below
as explicit scanners over `List Char`.  JavaScript `\s` also matches some
non-ASCII whitespace and `toLowerCase` is Unicode-aware; the transcription
covers the ASCII range, which is all the pattern literals and the
`[a-zA-Z]` capture classes can interact with. -/

/-- ASCII lowercasing of one character (JS `toLowerCase` / the `/i` flag,
restricted to the ASCII letters the patterns can match). -/
def asciiLowerChar (c : Char) : Char :=
  if 'A' ≤ c ∧ c ≤ 'Z' then Char.ofNat (c.toNat + 32) else c

/-- ASCII lowercasing of a string. -/
def asciiLower (s : String) : String :=
  String.mk (s.toList.map asciiLowerChar)

/-- JS `\s` (ASCII range). -/
def isWS (c : Char) : Bool :=
  c = ' ' ∨ c = '\t' ∨ c = '\n' ∨ c = '\r' ∨ c = '\x0b' ∨ c = '\x0c'

/-- The regex class `[a-z]` over already-lowercased text
(images of `[a-zA-Z]` under `asciiLower`). -/
def isLetter (c : Char) : Bool := 'a' ≤ c ∧ c ≤ 'z'

/-- A regex word character `[A-Za-z0-9_]` (for `\b`), over lowercased text. -/
def isWordChar (c : Char) : Bool :=
  isLetter c ∨ ('0' ≤ c ∧ c ≤ '9') ∨ c = '_'

/-- Does `s` start with `pre`? -/
def startsWithL : List Char → List Char → Bool
  | [], _ => true
  | _ :: _, [] => false
  | p :: ps, c :: cs => p = c ∧ startsWithL ps cs

/-- First occurrence of `needle` in `s`: `some (before, after)` with
`s = before ++ needle ++ after`, scanning start positions left to right. -/
def splitFirst (needle : List Char) : List Char → Option (List Char × List Char)
  | [] => if needle = [] then some ([], []) else none
  | c :: cs =>
      if startsWithL needle (c :: cs) then some ([], (c :: cs).drop needle.length)
      else (splitFirst needle cs).map (fun p => (c :: p.1, p.2))

/-- JS `String.prototype.includes`. -/
def jsIncludes (s sub : String) : Bool := (splitFirst sub.toList s.toList).isSome

/-- Strip whitespace from both ends (the `\s*` groups framing the lazy
capture of the fenced-block regex). -/
def trimWS (s : List Char) : List Char :=
  ((s.dropWhile isWS).reverse.dropWhile isWS).reverse

/-- Prefix of `s` up to and including the last occurrence of `ch`
(greedy `[\s\S]*` before a final literal); `[]` if `ch` is absent. -/
def upToLast (ch : Char) (s : List Char) : List Char :=
  (s.reverse.dropWhile (fun c => ¬ c = ch)).reverse

/-! ## The `extractJSON` regular expressions

`content.match(/```json\s*([\s\S]*?)\s*```/)`: the leftmost match starts at
the first occurrence of ```` ```json ````; the lazy capture ends at the
next occurrence of ` ``` `, with the framing `\s*` groups keeping leading
and trailing whitespace out of the capture group.  (If the text after a
```` ```json ```` contains no closing fence, no later start can match
either, since ```` ```json ```` itself contains ` ``` `.) -/

/-- The first fenced-block match, returned as the raw text between the
fences (`some mid` with full match ```` ```json<mid>``` ````; the capture
group is `trimWS mid`). -/
def matchJsonFence (content : List Char) : Option (List Char) := do
  let (_, rest) ← splitFirst ("```json".toList) content
  let (mid, _) ← splitFirst ("```".toList) rest
  pure mid

/-- The literal `"operations"` (with its quotes) required by the fallback
regex `/\{[\s\S]*"operations"[\s\S]*\}/`. -/
def opsKey : List Char := "\"operations\"".toList

/-- The fallback regex `/\{[\s\S]*"operations"[\s\S]*\}/`: the leftmost
match starts at the first `{` that is followed (strictly later) by
`"operations"` and then a `}`; both `[\s\S]*` are greedy, so the match
runs to the last `}` of the string that lies beyond the key. -/
def matchOperationsBlock : List Char → Option (List Char)
  | [] => none
  | c :: cs =>
      if c = '{' then
        match splitFirst opsKey cs with
        | some (preOps, after) =>
            if after.contains '}' then
              some ('{' :: (preOps ++ opsKey ++ upToLast '}' after))
            else matchOperationsBlock cs
        | none => matchOperationsBlock cs
      else matchOperationsBlock cs

/-- `jsonMatch[1] || jsonMatch[0]` (route.ts 251–255): for the fenced
pattern the capture group is used unless it is the empty string (falsy in
JS), in which case the whole match text is used; for the fallback pattern
there is no capture group, so the whole match is used. -/
def extractJSONStr (content : String) : Option String :=
  match matchJsonFence content.toList with
  | some mid =>
      let cap := trimWS mid
      if cap ≠ [] then some (String.mk cap)
      else some (String.mk ("```json".toList ++ mid ++ "```".toList))
  | none => (matchOperationsBlock content.toList).map String.mk

/-! ## JSON values and `JSON.parse` -/

/-- A parsed JSON value.  Numbers are kept as their source lexeme: no
verified property depends on numeric (floating-point) semantics. -/
inductive Json where
  | null : Json
  | bool (b : Bool) : Json
  | num (lexeme : String) : Json
  | str (s : String) : Json
  | arr (elems : List Json) : Json
  | obj (fields : List (String × Json)) : Json

instance : Inhabited Json := ⟨Json.null⟩

/-- JSON whitespace (`JSON.parse` accepts exactly these four). -/
def isJsonWS (c : Char) : Bool :=
  c = ' ' ∨ c = '\t' ∨ c = '\n' ∨ c = '\r'

/-- One hexadecimal digit. -/
def hexVal (c : Char) : Option Nat :=
  if '0' ≤ c ∧ c ≤ '9' then some (c.toNat - '0'.toNat)
  else if 'a' ≤ c ∧ c ≤ 'f' then some (c.toNat - 'a'.toNat + 10)
  else if 'A' ≤ c ∧ c ≤ 'F' then some (c.toNat - 'A'.toNat + 10)
  else none

/-- Parse the body of a JSON string literal (opening quote consumed),
returning the decoded characters and the rest after the closing quote. -/
def parseStringBody (fuel : Nat) (s : List Char) :
    Except String (List Char × List Char) :=
  match fuel, s with
  | 0, _ => .error "out of fuel"
  | _, [] => .error "unterminated string"
  | fuel + 1, c :: cs =>
      if c = '"' then .ok ([], cs)
      else if c = '\\' then
        match cs with
        | [] => .error "bad escape"
        | e :: cs' =>
            let cont (decoded : Char) (rest : List Char) :
                Except String (List Char × List Char) := do
              let (tail, rest') ← parseStringBody fuel rest
              pure (decoded :: tail, rest')
            if e = '"' then cont '"' cs'
            else if e = '\\' then cont '\\' cs'
            else if e = '/' then cont '/' cs'
            else if e = 'b' then cont '\x08' cs'
            else if e = 'f' then cont '\x0c' cs'
            else if e = 'n' then cont '\n' cs'
            else if e = 'r' then cont '\r' cs'
            else if e = 't' then cont '\t' cs'
            else if e = 'u' then
              match cs' with
              | h1 :: h2 :: h3 :: h4 :: cs'' =>
                  match hexVal h1, hexVal h2, hexVal h3, hexVal h4 with
                  | some a, some b, some c', some d =>
                      let n := ((a * 16 + b) * 16 + c') * 16 + d
                      cont (Char.ofNat n) cs''
                  | _, _, _, _ => .error "bad unicode escape"
              | _ => .error "bad unicode escape"
            else .error "bad escape"
      else if c.toNat < 0x20 then .error "control character in string"
      else do
        let (tail, rest') ← parseStringBody fuel cs
        pure (c :: tail, rest')

/-- Parse a JSON number lexeme at the head of `s` (grammar
`-?(0|[1-9][0-9]*)(\.[0-9]+)?([eE][+-]?[0-9]+)?`), returning the lexeme
and the rest. -/
def parseNumber (s : List Char) : Except String (List Char × List Char) :=
  let isDigit := fun c => '0' ≤ c ∧ c ≤ '9'
  let (sign, s1) := if startsWithL ['-'] s then (['-'], s.drop 1) else ([], s)
  match s1 with
  | [] => .error "bad number"
  | d :: _ =>
      if ¬ isDigit d then .error "bad number"
      else
        let intPart := s1.takeWhile isDigit
        let s2 := s1.dropWhile isDigit
        if intPart.length > 1 ∧ intPart.headD '0' = '0' then .error "bad number"
        else
          let (fracPart, s3) :=
            match s2 with
            | '.' :: rest =>
                ('.' :: rest.takeWhile isDigit, rest.dropWhile isDigit)
            | _ => ([], s2)
          if fracPart = ['.'] then .error "bad number"
          else
            let (expPart, s4) :=
              match s3 with
              | e :: rest =>
                  if e = 'e' ∨ e = 'E' then
                    let (sgn, rest') :=
                      match rest with
                      | p :: rest'' =>
                          if p = '+' ∨ p = '-' then ([p], rest'')
                          else ([], rest)
                      | [] => ([], rest)
                    (e :: sgn ++ rest'.takeWhile isDigit,
                     rest'.dropWhile isDigit)
                  else ([], s3)
              | [] => ([], s3)
            match expPart with
            | e :: tail =>
                if (e = 'e' ∨ e = 'E') ∧ tail.takeWhile isDigit = [] ∧
                    (tail.dropWhile (fun c => c = '+' ∨ c = '-') = []) then
                  .error "bad number"
                else .ok (sign ++ intPart ++ fracPart ++ expPart, s4)
            | [] => .ok (sign ++ intPart ++ fracPart, s4)

mutual

/-- Parse one JSON value after skipping leading whitespace. -/
def parseValue (fuel : Nat) (s : List Char) :
    Except String (Json × List Char) :=
  match fuel with
  | 0 => .error "out of fuel"
  | fuel + 1 =>
      match s.dropWhile isJsonWS with
      | [] => .error "unexpected end of input"
      | c :: cs =>
          if c = '{' then parseMembers fuel cs true []
          else if c = '[' then parseElems fuel cs true []
          else if c = '"' then do
            let (body, rest) ← parseStringBody fuel cs
            pure (Json.str (String.mk body), rest)
          else if startsWithL "true".toList (c :: cs) then
            .ok (Json.bool true, (c :: cs).drop 4)
          else if startsWithL "false".toList (c :: cs) then
            .ok (Json.bool false, (c :: cs).drop 5)
          else if startsWithL "null".toList (c :: cs) then
            .ok (Json.null, (c :: cs).drop 4)
          else do
            let (lexeme, rest) ← parseNumber (c :: cs)
            pure (Json.num (String.mk lexeme), rest)

/-- Parse object members after `{` (with `first = true`) or after a comma. -/
def parseMembers (fuel : Nat) (s : List Char) (first : Bool)
    (acc : List (String × Json)) : Except String (Json × List Char) :=
  match fuel with
  | 0 => .error "out of fuel"
  | fuel + 1 =>
      match s.dropWhile isJsonWS with
      | [] => .error "unterminated object"
      | c :: cs =>
          if c = '}' ∧ first then .ok (Json.obj acc.reverse, cs)
          else
            if c = '"' then do
              let (key, rest) ← parseStringBody fuel cs
              match rest.dropWhile isJsonWS with
              | ':' :: rest' => do
                  let (v, rest'') ← parseValue fuel rest'
                  match rest''.dropWhile isJsonWS with
                  | ',' :: rest''' =>
                      parseMembers fuel rest''' false
                        ((String.mk key, v) :: acc)
                  | '}' :: rest''' =>
                      .ok (Json.obj (((String.mk key, v) :: acc).reverse), rest''')
                  | _ => .error "expected , or \x7d"
              | _ => .error "expected :"
            else .error "expected string key"

/-- Parse array elements after `[` (with `first = true`) or after a comma. -/
def parseElems (fuel : Nat) (s : List Char) (first : Bool)
    (acc : List Json) : Except String (Json × List Char) :=
  match fuel with
  | 0 => .error "out of fuel"
  | fuel + 1 =>
      match s.dropWhile isJsonWS with
      | ']' :: cs =>
          if first then .ok (Json.arr acc.reverse, cs)
          else do
            let (v, rest) ← parseValue fuel (']' :: cs)
            afterElem fuel rest (v :: acc)
      | s' => do
          let (v, rest) ← parseValue fuel s'
          afterElem fuel rest (v :: acc)

/-- After one array element: a comma continues, `]` closes. -/
def afterElem (fuel : Nat) (s : List Char) (acc : List Json) :
    Except String (Json × List Char) :=
  match fuel with
  | 0 => .error "out of fuel"
  | fuel + 1 =>
      match s.dropWhile isJsonWS with
      | ',' :: rest => parseElems fuel rest false acc
      | ']' :: rest => .ok (Json.arr acc.reverse, rest)
      | _ => .error "expected , or ]"

end

/-- `JSON.parse`: one value, then only whitespace may remain. -/
def jsonParse (s : String) : Except String Json := do
  let (v, rest) ← parseValue (s.length + 1) s.toList
  if rest.dropWhile isJsonWS = [] then pure v
  else .error "unexpected trailing characters"

/-- The body of `extractJSON` with exception transparency: a `JSON.parse`
failure surfaces as `.error` (the `throw` the source's `catch` absorbs). -/
def extractJSONE (content : String) : Except String (Option Json) :=
  match extractJSONStr content with
  | some jsonStr =>
      match jsonParse jsonStr with
      | .ok v => .ok (some v)
      | .error e => .error e
  | none => .ok none

/-- `extractJSON` (route.ts 244–270): the `try`/`catch` wrapper — a parse
failure is caught and `null` returned; no match also returns `null`. -/
def extractJSON (content : String) : Option Json :=
  match extractJSONE content with
  | .ok v => v
  | .error _ => none

/-! ## The hand-off regular expressions of `processAgentResponse`

All three patterns carry the `/i` flag; they are matched here against the
ASCII-lowercased content (equivalent for the lowercase literals and
`[a-zA-Z]` classes involved), which also renders the source's subsequent
`match[1].toLowerCase()` the identity.  Each scanner tries start positions
left to right and alternation branches in pattern order, as the
backtracking regex engine does. -/

/-- The quote class `["'']` of `let["'']?s` / `that["'']?s`
(a double quote and an — in the source duplicated — apostrophe). -/
def isQuoteCh (c : Char) : Bool := c = '"' ∨ c = '\''

/-- Maximal letter run at the head of `s` (the greedy `([a-zA-Z]+)`
capture), with the rest. -/
def letterRun (s : List Char) : List Char × List Char :=
  (s.takeWhile isLetter, s.dropWhile isLetter)

/-- The common tail `\s+(?:the\s+)?([a-zA-Z]+)` of pattern 1: at least one
whitespace, an optional `the` followed by whitespace (tried first, as the
greedy `?` does, falling back when no capture can follow), then the
capture. -/
def p1Tail (rest : List Char) : Option (List Char) :=
  let ws := rest.takeWhile isWS
  let r1 := rest.dropWhile isWS
  if ws.length = 0 then none
  else
    let withThe : Option (List Char) :=
      if startsWithL "the".toList r1 then
        let r2 := (r1.drop 3)
        let ws2 := r2.takeWhile isWS
        let r3 := r2.dropWhile isWS
        if ws2.length ≥ 1 ∧ (letterRun r3).1 ≠ [] then some (letterRun r3).1
        else none
      else none
    match withThe with
    | some cap => some cap
    | none => if (letterRun r1).1 ≠ [] then some (letterRun r1).1 else none

/-- The rests after each way the leading alternation
`pass(?:ing)?|hand(?:ing)?\s*(?:off|over)|calling\s*on|let["'']?s\s*hear\s*from`
can match at the head of `s`, in backtracking priority order
(greedy `(?:ing)?` first). -/
def p1StarterRests (s : List Char) : List (List Char) :=
  let passRests :=
    (if startsWithL "passing".toList s then [s.drop 7] else []) ++
    (if startsWithL "pass".toList s then [s.drop 4] else [])
  let handRest := fun (stem : String) =>
    if startsWithL stem.toList s then
      let r := (s.drop stem.length).dropWhile isWS
      if startsWithL "off".toList r then [r.drop 3]
      else if startsWithL "over".toList r then [r.drop 4]
      else []
    else []
  let callingRests :=
    if startsWithL "calling".toList s then
      let r := (s.drop 7).dropWhile isWS
      if startsWithL "on".toList r then [r.drop 2] else []
    else []
  let letsRests :=
    if startsWithL "let".toList s then
      let after := s.drop 3
      let quoteOpts :=
        (match after with
         | q :: rest => if isQuoteCh q then [rest] else []
         | [] => []) ++ [after]
      quoteOpts.flatMap (fun qo =>
        if startsWithL "s".toList qo then
          let r := (qo.drop 1).dropWhile isWS
          if startsWithL "hear".toList r then
            let r2 := (r.drop 4).dropWhile isWS
            if startsWithL "from".toList r2 then [r2.drop 4] else []
          else []
        else [])
    else []
  passRests ++ handRest "handing" ++ handRest "hand" ++ callingRests ++ letsRests

/-- Pattern 1,
`/(?:pass(?:ing)?|hand(?:ing)?\s*(?:off|over)|calling\s*on|let["'']?s\s*hear\s*from)\s+(?:the\s+)?([a-zA-Z]+)/i`:
leftmost match, returning the capture group. -/
def matchPassPattern : List Char → Option (List Char)
  | [] => none
  | c :: cs =>
      match (p1StarterRests (c :: cs)).findSome? p1Tail with
      | some cap => some cap
      | none => matchPassPattern cs

/-- A word sequence with `\s*` between consecutive literals
(e.g. `your\s*turn`). -/
def matchWordSeq : List (List Char) → List Char → Bool
  | [], _ => true
  | w :: ws, s =>
      startsWithL w s ∧ matchWordSeq ws ((s.drop w.length).dropWhile isWS)

/-- After the captured name of pattern 2: `,\s*` then one of the
alternatives `your\s*turn`, `what\s*do\s*you\s*think`, `take\s*it\s*away`. -/
def p2After (s : List Char) : Bool :=
  match s with
  | ',' :: rest =>
      let r := rest.dropWhile isWS
      matchWordSeq ["your".toList, "turn".toList] r ∨
      matchWordSeq ["what".toList, "do".toList, "you".toList, "think".toList] r ∨
      matchWordSeq ["take".toList, "it".toList, "away".toList] r
  | _ => false

/-- Pattern 2,
`/\b([a-zA-Z]+),\s*(?:your\s*turn|what\s*do\s*you\s*think|take\s*it\s*away)/i`:
the tracked flag says whether the previous character was a word character
(so `\b` holds exactly when it is `false` and a letter follows). -/
def matchTurnPattern (prevIsWord : Bool) : List Char → Option (List Char)
  | [] => none
  | c :: cs =>
      if ¬ prevIsWord ∧ isLetter c ∧ p2After (letterRun (c :: cs)).2 then
        some (letterRun (c :: cs)).1
      else matchTurnPattern (isWordChar c) cs

/-- Pattern 3, `/@([a-zA-Z]+)/i`: first `@` followed by at least one
letter. -/
def matchAtPattern : List Char → Option (List Char)
  | [] => none
  | c :: cs =>
      if c = '@' ∧ (letterRun cs).1 ≠ [] then some (letterRun cs).1
      else matchAtPattern cs

/-- One alternative of the moderator-return test at some position:
`back\s*to\s*(?:you\s*)?moderator`. -/
def backToModAt (s : List Char) : Bool :=
  if startsWithL "back".toList s then
    let r := (s.drop 4).dropWhile isWS
    if startsWithL "to".toList r then
      let r2 := (r.drop 2).dropWhile isWS
      (if startsWithL "you".toList r2 then
         startsWithL "moderator".toList ((r2.drop 3).dropWhile isWS)
       else false) ∨
      startsWithL "moderator".toList r2
    else false
  else false

/-- The other alternative: `that["'']?s\s*(?:all\s*)?(?:from\s*)?me`. -/
def thatsAllAt (s : List Char) : Bool :=
  if startsWithL "that".toList s then
    let after := s.drop 4
    let sOpts :=
      (match after with
       | q :: rest => if isQuoteCh q then [rest] else []
       | [] => []) ++ [after]
    sOpts.any (fun so =>
      if startsWithL "s".toList so then
        let r := (so.drop 1).dropWhile isWS
        let afterAll :=
          (if startsWithL "all".toList r then [(r.drop 3).dropWhile isWS]
           else []) ++ [r]
        afterAll.any (fun r2 =>
          let afterFrom :=
            (if startsWithL "from".toList r2 then [(r2.drop 4).dropWhile isWS]
             else []) ++ [r2]
          afterFrom.any (fun r3 => startsWithL "me".toList r3))
      else false)
  else false

/-- `/(?:back\s*to\s*(?:you\s*)?moderator|that["'']?s\s*(?:all\s*)?(?:from\s*)?me)/i.test(content)`
(route.ts 424) — note, both branches of the `if` it guards return the same
value, so this test is behaviourally inert. -/
def testModeratorReturn : List Char → Bool
  | [] => false
  | c :: cs => backToModAt (c :: cs) ∨ thatsAllAt (c :: cs) ∨ testModeratorReturn cs

/-- The result record of `processAgentResponse`. -/
structure AgentRouteResult where
  nextAgent : Option String
  shouldReturnToModerator : Bool
deriving Repr, DecidableEq

/-- `processAgentResponse` (route.ts 406–429): try the three hand-off
patterns in order; a match whose (lowercased) capture is an enabled
persona — or the always-allowed `cardsmith` — wins; a match with an
unknown name falls through to the next pattern; otherwise control returns
to the moderator (the explicit closing-phrase test changes nothing, as
both branches return the same record). -/
def processAgentResponse (includePersonas : List String) (content : String) :
    AgentRouteResult :=
  let lc := (asciiLower content).toList
  let tryPat := fun (m : Option (List Char)) =>
    m.bind (fun cap =>
      let targetAgent := String.mk cap
      if includePersonas.contains targetAgent ∨ targetAgent = "cardsmith" then
        some targetAgent
      else none)
  match tryPat (matchPassPattern lc) with
  | some t => ⟨some t, false⟩
  | none =>
      match tryPat (matchTurnPattern false lc) with
      | some t => ⟨some t, false⟩
      | none =>
          match tryPat (matchAtPattern lc) with
          | some t => ⟨some t, false⟩
          | none =>
              if testModeratorReturn lc then ⟨none, true⟩
              else ⟨none, true⟩

/-- Expert selection at the start of a round (route.ts 519, 539–547):
filter out last round's speaker, default to the first remaining persona
(`undefined`, i.e. `none`, when nothing remains), then take the first
persona whose lowercased name occurs in the moderator's lowercased text.
`lastAgent` is `Option String` because `conversationState.lastAgent` can
hold `undefined` (a round whose own selection was `undefined`). -/
def availableExpertsOf (includePersonas : List String)
    (lastAgent : Option String) : List String :=
  includePersonas.filter (fun p => ¬ some p = lastAgent)

/-- `selectedExpert` (route.ts 539–547): default `availableExperts[0]`,
overridden by the first available expert whose name occurs in the
moderator's lowercased text. -/
def selectExpert (includePersonas : List String) (lastAgent : Option String)
    (moderatorSelection : String) : Option String :=
  let availableExperts := availableExpertsOf includePersonas lastAgent
  match availableExperts.find?
      (fun e => jsIncludes (asciiLower moderatorSelection) (asciiLower e)) with
  | some e => some e
  | none => availableExperts.head?

/-! ## JS truthiness and duck typing on parsed JSON -/

/-- Is a JSON number lexeme a representation of zero (`0`, `-0`, `0.00`,
`0e9`, ... — the falsy numbers)? -/
def numIsZero (lexeme : String) : Bool :=
  let mantissa := lexeme.toList.takeWhile (fun c => ¬ (c = 'e' ∨ c = 'E'))
  mantissa.all (fun c => c = '0' ∨ c = '-' ∨ c = '.')

/-- JS truthiness of a `JSON.parse` result. -/
def jsTruthy : Json → Bool
  | .null => false
  | .bool b => b
  | .num lexeme => ¬ numIsZero lexeme
  | .str s => ¬ s = ""
  | .arr _ => true
  | .obj _ => true

/-- `.length` of a parsed JSON value: arrays and strings have one, every
other value gives `undefined` (`none`). -/
def jsLength : Json → Option Nat
  | .arr elems => some elems.length
  | .str s => some s.length
  | _ => none

/-- Property access `j.key` on a parsed value — `undefined` (`none`) on
non-objects and absent keys; `JSON.parse` resolves duplicate keys
last-wins. -/
def getField (j : Json) (key : String) : Option Json :=
  match j with
  | .obj fields => (fields.reverse.find? (fun kv => kv.1 = key)).map (fun kv => kv.2)
  | _ => none

/-- `extractJSON(content)?.operations` — the operations value the turn
engine inspects. -/
def extractOperations (content : String) : Option Json :=
  (extractJSON content).bind (fun j => getField j "operations")

/-- `if (x?.operations)` (cardsmith branch): truthiness only. -/
def opsTruthyCheck (o : Option Json) : Bool :=
  match o with
  | some v => jsTruthy v
  | none => false

/-- `if (x?.operations && x.operations.length > 0)` (expert branch):
truthiness, then a `length` comparison (`undefined > 0` is `false`). -/
def opsNonEmptyCheck (o : Option Json) : Bool :=
  match o with
  | some v =>
      jsTruthy v && (match jsLength v with
                     | some n => decide (0 < n)
                     | none => false)
  | none => false

/-- A string-valued field of a parsed object (non-string values of the
card fields are identified with absent ones; no verified property depends
on them). -/
def strField (j : Json) (key : String) : Option String :=
  match getField j key with
  | some (.str s) => some s
  | _ => none

/-- The flashcard payload of a parsed operation, as
`applyFlashcardOperations` consumes it. -/
def decodeCard (j : Json) : Flashcard where
  question := strField j "question"
  answer := strField j "answer"
  tags :=
    match getField j "tags" with
    | some (.arr elems) =>
        some (elems.filterMap (fun e =>
          match e with
          | .str s => some s
          | _ => none))
    | _ => none
  notes := strField j "notes"
  id := strField j "id"

/-- One parsed operation object as `applyFlashcardOperations` consumes it:
a non-string `type` selects no branch (kept as `""`), a falsy `flashcard`
fails the payload guards (kept as `none`), a non-string `flashcard_id`
strict-equals no stored id (identified with absent). -/
def decodeOp (j : Json) : FlashcardOperation where
  type :=
    match getField j "type" with
    | some (.str s) => s
    | _ => ""
  flashcard :=
    match getField j "flashcard" with
    | some v => if jsTruthy v then some (decodeCard v) else none
    | none => none
  flashcard_id :=
    match getField j "flashcard_id" with
    | some (.str s) => some s
    | _ => none
  reason :=
    match getField j "reason" with
    | some (.str s) => some s
    | _ => none

/-! ## The streaming session model

The turn engine (route.ts 432–672) is embedded as a state-plus-exception
monad over a session state.  The completion capability is an oracle
`chat : Nat → LLMTurn` indexed by the running count of completion calls
(each call streams `chunks` and then either completes or fails — a failure
is the provider error the outer `catch` turns into an `error` event).  The
id generator is the oracle `genId`.  Prompt texts and per-persona thread
contents are elided: they feed only the opaque completion capability.
`Date.now()` timestamps are fixed at `0` and the floating-point `progress`
percentages are elided: no verified property mentions them. -/

/-- `getAgentDisplayName` (route.ts 389–403). -/
def getAgentDisplayName (agentType : String) : String :=
  if agentType = "moderator" then "Moderator"
  else if agentType = "cardsmith" then "Cardsmith"
  else if agentType = "explainer" then "Dr. Emma Chen (Explainer)"
  else if agentType = "challenger" then "Dr. Alex Rivera (Challenger)"
  else if agentType = "beginner" then "Sam Kim (Beginner)"
  else if agentType = "engineer" then "Dr. Jordan Taylor (Engineer)"
  else if agentType = "coach" then "Dr. Morgan Davis (Coach)"
  else if agentType = "historian" then "Dr. Casey Brown (Historian)"
  else if agentType = "contrarian" then "Dr. Robin Lee (Contrarian)"
  else if agentType = "refiner" then "Dr. Jamie Park (Refiner)"
  else agentType

/-- `Object.keys(agentPrompts)` — the roles that own a message thread;
`[...agentThreads[a]]` throws for any other `a`. -/
def agentRoles : List String :=
  ["moderator", "cardsmith", "explainer", "challenger", "beginner",
   "engineer", "coach", "historian", "contrarian", "refiner"]

/-- A transcript message (`FlashcardMessage`). -/
structure Message where
  role : String
  content : String
  timestamp : Nat
  speaker : String
deriving Repr, DecidableEq

/-- One emitted server-sent event, with the claim-relevant payload. -/
inductive Event where
  | status (message : String) : Event
  | message_start (messageId : String) (message : Message) : Event
  | message_token (messageId : String) (token : String) (content : String) : Event
  | message_complete (messageId : String) (finalContent : String) : Event
  | flashcards_updated (flashcards : List Flashcard)
      (operations : List FlashcardOperation) : Event
  | complete (topic : String) (conversation : List Message)
      (flashcards : List Flashcard) : Event
  | error (message : String) : Event
deriving Repr, DecidableEq

/-- The two terminal event kinds. -/
def isTerminal : Event → Bool
  | .complete _ _ _ => true
  | .error _ => true
  | _ => false

/-- The `config` record destructured in `POST`. -/
structure Config where
  NUM_ROUNDS : Nat
  MAX_EXPERT_PASSES : Nat
  INCLUDE_PERSONAS : List String
  INCLUDE_TRANSCRIPT : Bool

/-- One completion call as seen from the engine: the streamed chunks, and
whether the call fails (throws) after them instead of completing. -/
structure LLMTurn where
  chunks : List String
  fail : Bool

/-- The session's environment: the completion capability and the fresh-id
source (`Date.now() + Math.random()`), both opaque. -/
structure Oracles where
  chat : Nat → LLMTurn
  genId : Nat → String

/-- The mutable state of one session: emitted events, the `conversation`
array, `currentFlashcards`, and `conversationState`, plus the cursors of
the two oracles. -/
structure SessionState where
  events : List Event := []
  conversation : List Message := []
  flashcards : List Flashcard := []
  transcript : List String := []
  currentRound : Nat := 0
  currentPassChain : Nat := 0
  activeAgent : Option String := some "moderator"
  lastAgent : Option String := some ""
  calls : Nat := 0
  genCounter : Nat := 0
deriving Repr

/-- The session monad: state plus a fatal-error channel (the exception the
outer `catch` converts into a single `error` event).  Events already
emitted survive a failure, as enqueued SSE data does. -/
abbrev SessM (α : Type) := SessionState → Except String α × SessionState

/-- `pure` of `SessM`. -/
def pureS {α : Type} (a : α) : SessM α := fun s => (.ok a, s)

/-- `bind` of `SessM`: on failure the rest is skipped, state kept. -/
def bindS {α β : Type} (x : SessM α) (f : α → SessM β) : SessM β := fun s =>
  match x s with
  | (.ok a, s') => f a s'
  | (.error e, s') => (.error e, s')

instance : Monad SessM where
  pure := pureS
  bind := bindS

/-- Throwing a fatal error (an uncaught JS exception in the `start` body). -/
def throwS {α : Type} (msg : String) : SessM α := fun s => (.error msg, s)

/-- Read the state. -/
def getS : SessM SessionState := fun s => (.ok s, s)

/-- Update the state. -/
def modifyS (f : SessionState → SessionState) : SessM Unit :=
  fun s => (.ok (), f s)

/-- `sendUpdate(...)` — enqueue one event. -/
def emit (e : Event) : SessM Unit :=
  modifyS (fun s => { s with events := s.events ++ [e] })

/-- `conversation[conversation.length - 1].content = content` (the
in-place token accumulation). -/
def setLastContent : List Message → String → List Message
  | [], _ => []
  | [m], c => [{ m with content := c }]
  | m :: m' :: ms, c => m :: setLastContent (m' :: ms) c

/-- The token loop of `streamResponse`: accumulate each chunk, mutate the
last conversation entry, emit a token event. -/
def emitChunks (messageId : String) : List String → String → SessM String
  | [], content => pureS content
  | chunk :: rest, content => do
      let c := content ++ chunk
      modifyS (fun s => { s with conversation := setLastContent s.conversation c })
      emit (.message_token messageId chunk c)
      emitChunks messageId rest c

/-- `streamResponse` (route.ts 299–359): push an empty message, emit
`message_start`, stream the chunks, then either complete the message or
rethrow the provider failure.  The prompt argument is elided (it feeds
only the opaque completion capability). -/
def streamResponse (orc : Oracles) (messageId role speaker : String) :
    SessM String := do
  let message : Message := { role := role, content := "", timestamp := 0, speaker := speaker }
  modifyS (fun s => { s with conversation := s.conversation ++ [message] })
  emit (.message_start messageId message)
  let s ← getS
  let turn := orc.chat s.calls
  modifyS (fun s' => { s' with calls := s'.calls + 1 })
  let content ← emitChunks messageId turn.chunks ""
  if turn.fail then throwS "completion request failed"
  else do
    emit (.message_complete messageId content)
    pureS content

/-- Apply an extracted `operations` value to the card store and emit
`flashcards_updated` — `operations.forEach` throws on a non-array (the
truthy-string case that passes the `.length > 0` guard). -/
def applyOpsFromJson (orc : Oracles) (v : Json) : SessM Unit := do
  match v with
  | .arr elems => do
      let ops := elems.map decodeOp
      let s ← getS
      let result := applyFlashcardOperations
        (fun k => orc.genId (s.genCounter + k)) s.flashcards ops
      let adds := (result.appliedOperations.filter (fun op => op.type = "add")).length
      modifyS (fun s' =>
        { s' with flashcards := result.flashcards, genCounter := s'.genCounter + adds })
      emit (.flashcards_updated result.flashcards result.appliedOperations)
  | _ => throwS "TypeError: operations.forEach is not a function"

/-- The extraction / application / one-shot-reminder step of an expert
turn (route.ts 571–616): apply a non-empty operations batch, else — only
when the content contains neither the substring `"```json"` nor
`"operations"` — run exactly one reminder turn and try once more. -/
def applyOrRemind (orc : Oracles) (round passChainCount : Nat)
    (currentAgent : String) (agentResponse : String) : SessM Unit := do
  let agentOps := extractOperations agentResponse
  if opsNonEmptyCheck agentOps then
    match agentOps with
    | some v => applyOpsFromJson orc v
    | none => pureS ()
  else
    if ¬ jsIncludes agentResponse "```json" ∧ ¬ jsIncludes agentResponse "operations" then
      if agentRoles.contains currentAgent then do
        let reminderResponse ← streamResponse orc
          (currentAgent ++ "-reminder-" ++ toString round ++ "-" ++ toString passChainCount)
          currentAgent (getAgentDisplayName currentAgent)
        let reminderOps := extractOperations reminderResponse
        if opsNonEmptyCheck reminderOps then
          match reminderOps with
          | some v => applyOpsFromJson orc v
          | none => pureS ()
        else pureS ()
      else throwS "TypeError: undefined is not iterable"
    else pureS ()

/-- One expert turn of the hand-off chain (route.ts 553–616): status
event, the persona's streamed response (`[...agentThreads[agent]]` throws
for a persona that owns no thread — in particular for the `undefined`
selection), transcript push, then extraction/application with the
one-shot reminder. -/
def expertTurn (orc : Oracles) (round passChainCount : Nat)
    (currentAgent : Option String) : SessM String := do
  let agentDisplayName :=
    match currentAgent with
    | some a => getAgentDisplayName a
    | none => "undefined"
  emit (.status (agentDisplayName ++ " is contributing..."))
  match currentAgent with
  | none => throwS "TypeError: undefined is not iterable"
  | some agent =>
      if agentRoles.contains agent then do
        let agentResponse ← streamResponse orc
          (agent ++ "-" ++ toString round ++ "-" ++ toString passChainCount)
          agent agentDisplayName
        modifyS (fun s =>
          { s with transcript := s.transcript ++ [agentDisplayName ++ ": " ++ agentResponse] })
        applyOrRemind orc round passChainCount agent agentResponse
        pureS agentResponse
      else throwS "TypeError: undefined is not iterable"

/-- The hand-off decision after a turn (route.ts 618–631): a detected
next agent is followed exactly when it is in `INCLUDE_PERSONAS`; in every
other case the chain breaks. -/
def handoffStep (includePersonas : List String) (pr : AgentRouteResult) :
    Option String :=
  if pr.shouldReturnToModerator ∨ pr.nextAgent.isNone then none
  else
    match pr.nextAgent with
    | some nextAgent =>
        if includePersonas.contains nextAgent then some nextAgent else none
    | none => none

/-- The `while (passChainCount < config.MAX_EXPERT_PASSES)` chain
(route.ts 553–632), returning the final `passChainCount` (the number of
transfers performed when started at `0`).  Each transfer records itself in
`conversationState.currentPassChain`.  The loop decreases the variant
`MAX_EXPERT_PASSES - passChainCount`, on which it is embedded structurally
as `fuel`: the caller passes `fuel = MAX_EXPERT_PASSES - passChainCount`,
each transfer increments `passChainCount` and decrements `fuel`, so
`fuel = 0` is exactly the exit condition
`¬(passChainCount < MAX_EXPERT_PASSES)`. -/
def chainLoop (orc : Oracles) (cfg : Config) (round : Nat) :
    Nat → Option String → Nat → SessM Nat
  | 0, _, passChainCount => pureS passChainCount
  | fuel + 1, currentAgent, passChainCount => do
      let agentResponse ← expertTurn orc round passChainCount currentAgent
      match handoffStep cfg.INCLUDE_PERSONAS
          (processAgentResponse cfg.INCLUDE_PERSONAS agentResponse) with
      | some nextAgent => do
          modifyS (fun s => { s with currentPassChain := passChainCount + 1 })
          chainLoop orc cfg round fuel (some nextAgent) (passChainCount + 1)
      | none => pureS passChainCount

/-- One round (route.ts 510–635): reset the chain counter, let the
moderator speak, select the round's first expert, run the hand-off chain,
record the selection as `lastAgent`. -/
def runRound (orc : Oracles) (cfg : Config) (round : Nat) : SessM Unit := do
  modifyS (fun s => { s with currentRound := round, currentPassChain := 0 })
  emit (.status "Moderator is selecting the next expert...")
  let s0 ← getS
  let moderatorSelection ← streamResponse orc ("moderator-" ++ toString round)
    "moderator" (getAgentDisplayName "moderator")
  modifyS (fun s =>
    { s with transcript := s.transcript ++ ["Moderator: " ++ moderatorSelection] })
  let selectedExpert :=
    selectExpert cfg.INCLUDE_PERSONAS s0.lastAgent moderatorSelection
  modifyS (fun s => { s with activeAgent := selectedExpert })
  -- the chain starts with `passChainCount = 0`, so its variant (the
  -- `fuel` argument) is `MAX_EXPERT_PASSES - 0`
  let _ ← chainLoop orc cfg round cfg.MAX_EXPERT_PASSES selectedExpert 0
  modifyS (fun s => { s with lastAgent := selectedExpert })

/-- `for (let round = 0; round < config.NUM_ROUNDS; round++)`. -/
def runRounds (orc : Oracles) (cfg : Config) : Nat → Nat → SessM Unit
  | _, 0 => pureS ()
  | round, remaining + 1 => do
      runRound orc cfg round
      runRounds orc cfg (round + 1) remaining

/-- The initial cardsmith draft with its one-shot reminder
(route.ts 446–507) — note the outer guard here is truthiness only (an
empty `operations` array is applied, emitting an empty update). -/
def initialDraft (orc : Oracles) : SessM Unit := do
  emit (.status "Cardsmith is creating initial flashcards...")
  let cardsmithContent ← streamResponse orc "cardsmith-initial" "cardsmith"
    (getAgentDisplayName "cardsmith")
  modifyS (fun s =>
    { s with transcript := s.transcript ++ ["Cardsmith: " ++ cardsmithContent] })
  let initialOps := extractOperations cardsmithContent
  if opsTruthyCheck initialOps then
    match initialOps with
    | some v => applyOpsFromJson orc v
    | none => pureS ()
  else
    if ¬ jsIncludes cardsmithContent "```json" ∧ ¬ jsIncludes cardsmithContent "operations" then do
      let reminderContent ← streamResponse orc "cardsmith-reminder" "cardsmith"
        (getAgentDisplayName "cardsmith")
      let reminderOps := extractOperations reminderContent
      if opsTruthyCheck reminderOps then
        match reminderOps with
        | some v => applyOpsFromJson orc v
        | none => pureS ()
      else pureS ()
    else pureS ()

/-- Everything the `try` block does before the terminal `complete` event
(route.ts 432–651). -/
def sessionMain (orc : Oracles) (cfg : Config) : SessM Unit := do
  emit (.status "Moderator is initiating the session...")
  let moderatorStart ← streamResponse orc "moderator-start" "moderator"
    (getAgentDisplayName "moderator")
  modifyS (fun s =>
    { s with transcript := s.transcript ++ ["Moderator: " ++ moderatorStart] })
  initialDraft orc
  runRounds orc cfg 0 cfg.NUM_ROUNDS
  emit (.status "Moderator is concluding the session...")
  let finalSummary ← streamResponse orc "moderator-final" "moderator"
    (getAgentDisplayName "moderator")
  modifyS (fun s =>
    { s with transcript := s.transcript ++ ["Moderator: " ++ finalSummary] })
  emit (.status "Finalizing flashcard set...")

/-- The whole `try` block: the session work, then the single `complete`
event (route.ts 654–662). -/
def sessionBody (orc : Oracles) (cfg : Config) (topic : String) : SessM Unit := do
  sessionMain orc cfg
  let s ← getS
  emit (.complete topic s.conversation s.flashcards)

/-- The state at `start(controller)` entry. -/
def initialState : SessionState := {}

/-- The full emitted event sequence of one session run: the `try` block's
events, with the `catch` appending a single `error` event on failure
(route.ts 664–672); `finally` closes the stream. -/
def sessionEvents (orc : Oracles) (cfg : Config) (topic : String) : List Event :=
  match sessionBody orc cfg topic initialState with
  | (.ok _, s) => s.events
  | (.error e, s) => s.events ++ [.error e]

/-! ## Observers and concrete fixtures used by the theorems below -/

/-- Is an event a `message_start` (the start of one persona turn)? -/
def isStartEvent : Event → Bool
  | .message_start _ _ => true
  | _ => false

/-- Number of persona turns begun within an event list. -/
def countStarts (events : List Event) : Nat := events.countP isStartEvent

/-- Is an event the start of the cardsmith's initial-draft reminder turn
(its message id is the fixed literal `cardsmith-reminder`,
route.ts 481–487)? -/
def isCsReminderStart : Event → Bool
  | .message_start messageId _ => messageId = "cardsmith-reminder"
  | _ => false

/-- Number of cardsmith-reminder turns begun within an event list. -/
def countCsReminders (events : List Event) : Nat :=
  events.countP isCsReminderStart

/-- The full content a completion call delivers (its chunks concatenated,
as `streamResponse` accumulates them). -/
def chunksConcat (turn : LLMTurn) : String :=
  turn.chunks.foldl (fun a b => a ++ b) ""

/-- An oracle whose completion calls never fail and answer call `n` with
the single chunk `answers n`; fresh ids are `"id0", "id1", ...`. -/
def scriptedOracle (answers : Nat → String) : Oracles where
  chat := fun n => { chunks := [answers n], fail := false }
  genId := fun n => "id" ++ toString n

/-- A one-persona roster configuration (the spec's minimal scenario). -/
def soloConfig (maxPasses : Nat) : Config where
  NUM_ROUNDS := 1
  MAX_EXPERT_PASSES := maxPasses
  INCLUDE_PERSONAS := ["explainer"]
  INCLUDE_TRANSCRIPT := true

/-- A stored card with id `"a1"` (counterexample fixture). -/
def cardA1 : Flashcard :=
  { question := some "q", answer := some "a", id := some "a1" }

/-- An `edit` whose payload smuggles an `id` field (counterexample
fixture for the shallow-spread merge). -/
def editSmugglingId : FlashcardOperation :=
  { type := "edit", flashcard := some { id := some "b2" },
    flashcard_id := some "a1" }

/-- `m` preserves the state component `pr` (both on success and on
failure). -/
def Keeps {γ α : Type} (pr : SessionState → γ) (m : SessM α) : Prop :=
  ∀ s, pr (m s).2 = pr s

/-- `m` only appends events, none of which satisfies `P` (both on success
and on failure). -/
def NoNew {α : Type} (P : Event → Bool) (m : SessM α) : Prop :=
  ∀ s, ∃ mid, (m s).2.events = s.events ++ mid ∧ ∀ e ∈ mid, P e = false

/-! # Theorems

Helper lemmas first, then one theorem per verified claim (with its
witness or counterexample). -/

/-- `List.set` at an index that already holds the written value is the
identity. -/
theorem set_getElem_self {α : Type} (l : List α) (i : Nat) (a : α)
    (h : l[i]? = some a) : l.set i a = l := by
  induction l generalizing i with
  | nil => simp at h
  | cons x xs ih =>
    cases i with
    | zero => simp at h; simp [h]
    | succ n => simp at h; simp [List.set, ih n h]

/-- `jsFindIndex` misses when nothing satisfies the predicate. -/
theorem jsFindIndex_eq_none {α : Type} (p : α → Bool) (l : List α)
    (h : ∀ a ∈ l, p a = false) : jsFindIndex p l = none := by
  induction l with
  | nil => rfl
  | cons x xs ih =>
    simp only [jsFindIndex, h x (by simp)]
    simp [ih (fun a ha => h a (by simp [ha]))]

/-- A hit of `jsFindIndex` is an in-range index whose element satisfies
the predicate. -/
theorem jsFindIndex_eq_some {α : Type} (p : α → Bool) (l : List α) (i : Nat)
    (h : jsFindIndex p l = some i) : ∃ a, l[i]? = some a ∧ p a = true := by
  induction l generalizing i with
  | nil => simp [jsFindIndex] at h
  | cons x xs ih =>
    by_cases hx : p x
    · simp [jsFindIndex, hx] at h
      subst h
      exact ⟨x, by simp, hx⟩
    · simp [jsFindIndex, hx] at h
      obtain ⟨j, hj, hji⟩ := h
      obtain ⟨a, ha, hpa⟩ := ih j hj
      exact ⟨a, by simpa [← hji] using ha, hpa⟩

/-- `idEq` against a present id is equality with it. -/
theorem idEq_some (o : Option String) (g : String) :
    idEq o (some g) = true ↔ o = some g := by
  cases o with
  | none => simp [idEq]
  | some x => simp [idEq]

/-- `idEq` against a present id refuted. -/
theorem idEq_eq_false (o : Option String) (g : String) (h : ¬ o = some g) :
    idEq o (some g) = false := by
  cases o with
  | none => rfl
  | some x => simp [idEq]; intro hx; exact h (by rw [hx])

/-- A dangling `delete` filters nothing out. -/
theorem filter_dangling (l : List Flashcard) (fid : Option String)
    (h : ∀ c ∈ l, idEq c.id fid = false) :
    l.filter (fun card => !(idEq card.id fid)) = l :=
  List.filter_eq_self.mpr (fun c hc => by simp [h c hc])

/-- C3.  For every card collection and every `edit` or `delete` operation
whose id matches no card in the collection, the operation leaves the
collection unchanged wherever it occurs in a batch (and, the step being a
total function, no error reaches the caller). -/
theorem dangling_edit_delete_noop (gen : Nat → String) (st : ApplyState)
    (op : FlashcardOperation)
    (htype : op.type = "edit" ∨ op.type = "delete")
    (hdangling : ∀ c ∈ st.updated, idEq c.id op.flashcard_id = false) :
    (applyOp gen st op).updated = st.updated := by
  have hna : ¬ (op.type = "add" ∧ op.flashcard.isSome = true) := by
    rcases htype with h | h <;> simp [h]
  unfold applyOp
  rw [if_neg hna]
  rcases htype with h | h
  · by_cases hg : op.type = "edit" ∧ strTruthy op.flashcard_id = true ∧
        op.flashcard.isSome = true
    · rw [if_pos hg]
      obtain ⟨-, -, hfc⟩ := hg
      cases hop : op.flashcard with
      | none => simp [hop] at hfc
      | some fc => simp [jsFindIndex_eq_none _ _ hdangling]
    · rw [if_neg hg]
      by_cases hd : op.type = "delete" ∧ strTruthy op.flashcard_id = true
      · exact absurd (h ▸ hd.1) (by decide)
      · rw [if_neg hd]
  · have hne : ¬ (op.type = "edit" ∧ strTruthy op.flashcard_id = true ∧
        op.flashcard.isSome = true) := by simp [h]
    rw [if_neg hne]
    by_cases hd : op.type = "delete" ∧ strTruthy op.flashcard_id = true
    · rw [if_pos hd]
      exact filter_dangling _ _ hdangling
    · rw [if_neg hd]

/-- Witness for C3: a dangling `delete` on a one-card store. -/
theorem dangling_edit_delete_noop_witness :
    (applyOp (fun _ => "g") ⟨[cardA1], [], 0⟩
      { type := "delete", flashcard_id := some "zz" }).updated = [cardA1] :=
  dangling_edit_delete_noop _ _ _ (Or.inr rfl) (by decide)

/-- Counterexample to C4 as stated: the `edit` branch merges the payload
with a shallow spread, so a payload carrying an `id` field overwrites the
stored card's id — the card `a1` survives the batch but leaves it with id
`b2`. -/
theorem edit_id_overwrite_counterexample :
    ((applyFlashcardOperations (fun _ => "fresh") [cardA1]
        [editSmugglingId]).flashcards.map Flashcard.id = [some "b2"]) ∧
    [cardA1].map Flashcard.id = [some "a1"] := by
  constructor <;> rfl

/-- C4 amended.  An `edit` operation preserves every stored card's id
provided its payload does not itself carry an `id` field (the shallow
spread `{ ...card, ...op.flashcard }` otherwise overwrites it). -/
theorem edit_without_id_field_preserves_ids (gen : Nat → String)
    (st : ApplyState) (op : FlashcardOperation)
    (htype : op.type = "edit")
    (hnoid : ∀ fc, op.flashcard = some fc → fc.id = none) :
    (applyOp gen st op).updated.map Flashcard.id =
      st.updated.map Flashcard.id := by
  have hna : ¬ (op.type = "add" ∧ op.flashcard.isSome = true) := by
    simp [htype]
  unfold applyOp
  rw [if_neg hna]
  by_cases hg : op.type = "edit" ∧ strTruthy op.flashcard_id = true ∧
      op.flashcard.isSome = true
  · rw [if_pos hg]
    obtain ⟨-, -, hfc⟩ := hg
    cases hop : op.flashcard with
    | none => simp [hop] at hfc
    | some fc =>
      cases hidx : jsFindIndex (fun card => idEq card.id op.flashcard_id)
          st.updated with
      | none => simp
      | some i =>
        obtain ⟨a, ha, -⟩ := jsFindIndex_eq_some _ _ _ hidx
        have hgetD : st.updated.getD i default = a := by
          simp [List.getD, ha]
        have hid : (spreadCards (st.updated.getD i default) fc).id = a.id := by
          rw [hgetD]
          simp [spreadCards, spreadField, hnoid fc hop]
        simp only [List.map_set, hid]
        exact set_getElem_self _ _ _
          (by rw [List.getElem?_map, ha]; rfl)
  · rw [if_neg hg]
    by_cases hd : op.type = "delete" ∧ strTruthy op.flashcard_id = true
    · exact absurd (htype ▸ hd.1) (by decide)
    · rw [if_neg hd]

/-- Witness for C4 (amended): an id-less `edit` payload rewrites the
question but keeps the id. -/
theorem edit_without_id_field_preserves_ids_witness :
    (applyOp (fun _ => "g") ⟨[cardA1], [], 0⟩
      { type := "edit", flashcard := some { question := some "q2" },
        flashcard_id := some "a1" }).updated.map Flashcard.id =
      [cardA1].map Flashcard.id :=
  edit_without_id_field_preserves_ids _ _ _ rfl
    (fun fc h => by cases h; rfl)

/-- C9.  Applying a batch of an `add` followed by a `delete` of the id
freshly generated for that `add` returns the original collection, for any
collection in which that fresh id does not already occur (the generator's
collision-freedom). -/
theorem add_then_delete_roundtrip (gen : Nat → String)
    (cards : List Flashcard) (fc : Flashcard) (addOp delOp : FlashcardOperation)
    (ha : addOp.type = "add") (hafc : addOp.flashcard = some fc)
    (hd : delOp.type = "delete") (hdid : delOp.flashcard_id = some (gen 0))
    (hne : gen 0 ≠ "")
    (hfresh : ∀ c ∈ cards, c.id ≠ some (gen 0)) :
    (applyFlashcardOperations gen cards [addOp, delOp]).flashcards = cards := by
  unfold applyFlashcardOperations
  simp only [List.foldl]
  -- the `add` step
  have hstep1 : applyOp gen ⟨cards, [], 0⟩ addOp =
      ⟨cards ++ [{ fc with id := some (gen 0) }],
       [{ addOp with flashcard := some { fc with id := some (gen 0) } }], 1⟩ := by
    unfold applyOp
    rw [if_pos ⟨ha, by simp [hafc]⟩]
    simp [hafc]
  rw [hstep1]
  -- the `delete` step
  unfold applyOp
  rw [if_neg (by simp [hd]), if_neg (by simp [hd]),
      if_pos ⟨hd, by simp [hdid, strTruthy, hne]⟩]
  simp only [hdid, List.filter_append]
  rw [filter_dangling _ _ (fun c hc => idEq_eq_false _ _ (hfresh c hc))]
  simp [List.filter, idEq]

/-- Witness for C9: add one card to a store already holding `a1`, then
delete the generated id. -/
theorem add_then_delete_roundtrip_witness :
    (applyFlashcardOperations (fun n => "id" ++ toString n) [cardA1]
      [{ type := "add", flashcard := some { question := some "nq" } },
       { type := "delete", flashcard_id := some "id0" }]).flashcards =
      [cardA1] :=
  add_then_delete_roundtrip _ _ { question := some "nq" } _ _ rfl rfl rfl rfl
    (by decide) (by decide)

/-- C10.  A `delete` whose id matches no card leaves the collection
unchanged yet is still recorded in `appliedOperations` (and hence in the
`operations` field of the `flashcards_updated` event, which
`applyOpsFromJson` builds from `appliedOperations`), whereas a dangling
`edit` is omitted from `appliedOperations`. -/
theorem dangling_delete_logged_edit_dropped (gen : Nat → String)
    (cards : List Flashcard) (fc : Flashcard) (g : String)
    (delOp editOp : FlashcardOperation)
    (hd : delOp.type = "delete") (hdid : delOp.flashcard_id = some g)
    (hg : g ≠ "") (hdangling : ∀ c ∈ cards, c.id ≠ some g)
    (he : editOp.type = "edit") (hefc : editOp.flashcard = some fc)
    (heid : editOp.flashcard_id = some g) :
    applyFlashcardOperations gen cards [delOp] =
      ⟨cards, [delOp]⟩ ∧
    applyFlashcardOperations gen cards [editOp] = ⟨cards, []⟩ := by
  constructor
  · unfold applyFlashcardOperations
    simp only [List.foldl]
    unfold applyOp
    rw [if_neg (by simp [hd]), if_neg (by simp [hd]),
        if_pos ⟨hd, by simp [hdid, strTruthy, hg]⟩]
    rw [hdid, filter_dangling _ _ (fun c hc => idEq_eq_false _ _ (hdangling c hc))]
    simp
  · unfold applyFlashcardOperations
    simp only [List.foldl]
    unfold applyOp
    rw [if_neg (by simp [he]),
        if_pos ⟨he, by simp [heid, strTruthy, hg], by simp [hefc]⟩]
    rw [hefc]
    have hnone : jsFindIndex (fun card => idEq card.id editOp.flashcard_id)
        cards = none :=
      jsFindIndex_eq_none _ _ (fun c hc => by
        rw [heid]; exact idEq_eq_false _ _ (hdangling c hc))
    simp [hnone]

/-- Witness for C10: the dangling `delete` is logged, the dangling `edit`
is not. -/
theorem dangling_delete_logged_edit_dropped_witness :
    applyFlashcardOperations (fun _ => "g") [cardA1]
        [{ type := "delete", flashcard_id := some "zz" }] =
      ⟨[cardA1], [{ type := "delete", flashcard_id := some "zz" }]⟩ ∧
    applyFlashcardOperations (fun _ => "g") [cardA1]
        [{ type := "edit", flashcard := some { question := some "q2" },
           flashcard_id := some "zz" }] = ⟨[cardA1], []⟩ :=
  dangling_delete_logged_edit_dropped _ _ { question := some "q2" } "zz" _ _
    rfl rfl (by decide) (by decide) rfl rfl rfl

/-! ## Closure lemmas for the session monad -/

theorem bind_eq_bindS {α β : Type} (x : SessM α) (f : α → SessM β) :
    x >>= f = bindS x f := rfl

theorem keeps_pureS {γ α : Type} (pr : SessionState → γ) (a : α) :
    Keeps pr (pureS a) := fun _ => rfl

theorem keeps_throwS {γ α : Type} (pr : SessionState → γ) (msg : String) :
    Keeps pr (throwS msg : SessM α) := fun _ => rfl

theorem keeps_getS {γ : Type} (pr : SessionState → γ) :
    Keeps pr getS := fun _ => rfl

theorem keeps_modifyS {γ : Type} (pr : SessionState → γ)
    (f : SessionState → SessionState) (hf : ∀ s, pr (f s) = pr s) :
    Keeps pr (modifyS f) := fun s => hf s

theorem keeps_bindS {γ α β : Type} (pr : SessionState → γ) (x : SessM α)
    (f : α → SessM β) (hx : Keeps pr x) (hf : ∀ a, Keeps pr (f a)) :
    Keeps pr (bindS x f) := by
  intro s
  have h1 := hx s
  unfold bindS
  cases hxs : x s with
  | mk r s' =>
    rw [hxs] at h1
    cases r with
    | ok a => simpa [h1] using hf a s'
    | error e => exact h1

theorem noNew_pureS {α : Type} (P : Event → Bool) (a : α) :
    NoNew P (pureS a) := fun s => ⟨[], by simp [pureS], by simp⟩

theorem noNew_throwS {α : Type} (P : Event → Bool) (msg : String) :
    NoNew P (throwS msg : SessM α) := fun s => ⟨[], by simp [throwS], by simp⟩

theorem noNew_getS (P : Event → Bool) :
    NoNew P getS := fun s => ⟨[], by simp [getS], by simp⟩

theorem noNew_modifyS (P : Event → Bool) (f : SessionState → SessionState)
    (hf : ∀ s, (f s).events = s.events) : NoNew P (modifyS f) :=
  fun s => ⟨[], by simp [modifyS, hf s], by simp⟩

theorem noNew_emit (P : Event → Bool) (e : Event) (he : P e = false) :
    NoNew P (emit e) :=
  fun s => ⟨[e], by simp [emit, modifyS], by simpa using he⟩

theorem noNew_bindS {α β : Type} (P : Event → Bool) (x : SessM α)
    (f : α → SessM β) (hx : NoNew P x) (hf : ∀ a, NoNew P (f a)) :
    NoNew P (bindS x f) := by
  intro s
  obtain ⟨mid1, h1, hn1⟩ := hx s
  unfold bindS
  cases hxs : x s with
  | mk r s' =>
    rw [hxs] at h1
    cases r with
    | ok a =>
        obtain ⟨mid2, h2, hn2⟩ := hf a s'
        simp only at h1 h2
        refine ⟨mid1 ++ mid2, ?_, ?_⟩
        · simp only [h2, h1, List.append_assoc]
        · intro e he
          rcases List.mem_append.mp he with h | h
          · exact hn1 e h
          · exact hn2 e h
    | error err => exact ⟨mid1, h1, hn1⟩

/-! ## Emission and preservation facts for the session actions -/

theorem keeps_emit {γ : Type} (pr : SessionState → γ) (e : Event)
    (hev : ∀ s ev, pr { s with events := ev } = pr s) :
    Keeps pr (emit e) :=
  keeps_modifyS pr _ (fun s => hev s _)

theorem keeps_emitChunks {γ : Type} (pr : SessionState → γ)
    (messageId : String)
    (hconv : ∀ s c, pr { s with conversation := c } = pr s)
    (hev : ∀ s ev, pr { s with events := ev } = pr s) :
    ∀ chunks acc, Keeps pr (emitChunks messageId chunks acc) := by
  intro chunks
  induction chunks with
  | nil => intro acc; exact keeps_pureS pr acc
  | cons c cs ih =>
      intro acc
      refine keeps_bindS pr _ _ (keeps_modifyS pr _ (fun s => hconv s _)) ?_
      intro _
      exact keeps_bindS pr _ _ (keeps_emit pr _ hev) (fun _ => ih _)

theorem keeps_streamResponse {γ : Type} (pr : SessionState → γ)
    (orc : Oracles) (messageId role speaker : String)
    (hconv : ∀ s c, pr { s with conversation := c } = pr s)
    (hev : ∀ s ev, pr { s with events := ev } = pr s)
    (hcalls : ∀ s n, pr { s with calls := n } = pr s) :
    Keeps pr (streamResponse orc messageId role speaker) := by
  unfold streamResponse
  refine keeps_bindS pr _ _ (keeps_modifyS pr _ (fun s => hconv s _)) ?_
  intro _
  refine keeps_bindS pr _ _ (keeps_emit pr _ hev) ?_
  intro _
  refine keeps_bindS pr _ _ (keeps_getS pr) ?_
  intro s
  refine keeps_bindS pr _ _ (keeps_modifyS pr _ (fun s' => hcalls s' _)) ?_
  intro _
  refine keeps_bindS pr _ _ (keeps_emitChunks pr _ hconv hev _ _) ?_
  intro content
  by_cases hf : (orc.chat s.calls).fail
  · simp only [hf, if_true]
    exact keeps_throwS pr _
  · simp only [hf, if_false]
    refine keeps_bindS pr _ _ (keeps_emit pr _ hev) ?_
    intro _
    exact keeps_pureS pr _

theorem keeps_applyOpsFromJson {γ : Type} (pr : SessionState → γ)
    (orc : Oracles) (v : Json)
    (hev : ∀ s ev, pr { s with events := ev } = pr s)
    (hfg : ∀ s fl gc, pr { s with flashcards := fl, genCounter := gc } = pr s) :
    Keeps pr (applyOpsFromJson orc v) := by
  unfold applyOpsFromJson
  cases v with
  | arr elems =>
      refine keeps_bindS pr _ _ (keeps_getS pr) ?_
      intro s
      refine keeps_bindS pr _ _ (keeps_modifyS pr _ (fun s' => hfg s' _ _)) ?_
      intro _
      exact keeps_emit pr _ hev
  | null => exact keeps_throwS pr _
  | bool b => exact keeps_throwS pr _
  | num l => exact keeps_throwS pr _
  | str st => exact keeps_throwS pr _
  | obj fs => exact keeps_throwS pr _

theorem keeps_applyOrRemind {γ : Type} (pr : SessionState → γ)
    (orc : Oracles) (round pcc : Nat) (agent content : String)
    (hconv : ∀ s c, pr { s with conversation := c } = pr s)
    (hev : ∀ s ev, pr { s with events := ev } = pr s)
    (hcalls : ∀ s n, pr { s with calls := n } = pr s)
    (hfg : ∀ s fl gc, pr { s with flashcards := fl, genCounter := gc } = pr s) :
    Keeps pr (applyOrRemind orc round pcc agent content) := by
  unfold applyOrRemind
  by_cases h1 : opsNonEmptyCheck (extractOperations content) = true
  · simp only [h1, if_true]
    cases extractOperations content with
    | none => exact keeps_pureS pr _
    | some v => exact keeps_applyOpsFromJson pr orc v hev hfg
  · simp only [h1, if_false]
    by_cases h2 : ¬ jsIncludes content "```json" = true ∧
        ¬ jsIncludes content "operations" = true
    · rw [if_pos h2]
      by_cases h3 : agentRoles.contains agent
      · simp only [h3, if_true]
        refine keeps_bindS pr _ _
          (keeps_streamResponse pr orc _ _ _ hconv hev hcalls) ?_
        intro rc
        by_cases h4 : opsNonEmptyCheck (extractOperations rc) = true
        · simp only [h4, if_true]
          cases extractOperations rc with
          | none => exact keeps_pureS pr _
          | some v => exact keeps_applyOpsFromJson pr orc v hev hfg
        · simp only [h4, if_false]
          exact keeps_pureS pr _
      · simp only [h3, Bool.false_eq_true, if_false]
        exact keeps_throwS pr _
    · rw [if_neg h2]
      exact keeps_pureS pr _

theorem keeps_expertTurn {γ : Type} (pr : SessionState → γ)
    (orc : Oracles) (round pcc : Nat) (currentAgent : Option String)
    (hconv : ∀ s c, pr { s with conversation := c } = pr s)
    (hev : ∀ s ev, pr { s with events := ev } = pr s)
    (hcalls : ∀ s n, pr { s with calls := n } = pr s)
    (hfg : ∀ s fl gc, pr { s with flashcards := fl, genCounter := gc } = pr s)
    (htr : ∀ s t, pr { s with transcript := t } = pr s) :
    Keeps pr (expertTurn orc round pcc currentAgent) := by
  unfold expertTurn
  refine keeps_bindS pr _ _ (keeps_emit pr _ hev) ?_
  intro _
  cases currentAgent with
  | none => exact keeps_throwS pr _
  | some agent =>
      by_cases h : agentRoles.contains agent
      · simp only [h, if_true]
        refine keeps_bindS pr _ _
          (keeps_streamResponse pr orc _ _ _ hconv hev hcalls) ?_
        intro resp
        refine keeps_bindS pr _ _ (keeps_modifyS pr _ (fun s => htr s _)) ?_
        intro _
        refine keeps_bindS pr _ _
          (keeps_applyOrRemind pr orc _ _ _ _ hconv hev hcalls hfg) ?_
        intro _
        exact keeps_pureS pr _
      · simp only [h, Bool.false_eq_true, if_false]
        exact keeps_throwS pr _

/-! ## No action before the terminal `complete` emits a terminal event -/

theorem noNewT_emitChunks (messageId : String) :
    ∀ chunks acc, NoNew isTerminal (emitChunks messageId chunks acc) := by
  intro chunks
  induction chunks with
  | nil => intro acc; exact noNew_pureS _ _
  | cons c cs ih =>
      intro acc
      refine noNew_bindS _ _ _ (noNew_modifyS _ _ (fun s => rfl)) ?_
      intro _
      exact noNew_bindS _ _ _ (noNew_emit _ _ rfl) (fun _ => ih _)

theorem noNewT_streamResponse (orc : Oracles) (messageId role speaker : String) :
    NoNew isTerminal (streamResponse orc messageId role speaker) := by
  unfold streamResponse
  refine noNew_bindS _ _ _ (noNew_modifyS _ _ (fun s => rfl)) ?_
  intro _
  refine noNew_bindS _ _ _ (noNew_emit _ _ rfl) ?_
  intro _
  refine noNew_bindS _ _ _ (noNew_getS _) ?_
  intro s
  refine noNew_bindS _ _ _ (noNew_modifyS _ _ (fun s' => rfl)) ?_
  intro _
  refine noNew_bindS _ _ _ (noNewT_emitChunks _ _ _) ?_
  intro content
  by_cases hf : (orc.chat s.calls).fail
  · simp only [hf, if_true]
    exact noNew_throwS _ _
  · simp only [hf, if_false]
    exact noNew_bindS _ _ _ (noNew_emit _ _ rfl) (fun _ => noNew_pureS _ _)

theorem noNewT_applyOpsFromJson (orc : Oracles) (v : Json) :
    NoNew isTerminal (applyOpsFromJson orc v) := by
  unfold applyOpsFromJson
  cases v with
  | arr elems =>
      refine noNew_bindS _ _ _ (noNew_getS _) ?_
      intro s
      refine noNew_bindS _ _ _ (noNew_modifyS _ _ (fun s' => rfl)) ?_
      intro _
      exact noNew_emit _ _ rfl
  | null => exact noNew_throwS _ _
  | bool b => exact noNew_throwS _ _
  | num l => exact noNew_throwS _ _
  | str st => exact noNew_throwS _ _
  | obj fs => exact noNew_throwS _ _

theorem noNewT_applyOrRemind (orc : Oracles) (round pcc : Nat)
    (agent content : String) :
    NoNew isTerminal (applyOrRemind orc round pcc agent content) := by
  unfold applyOrRemind
  by_cases h1 : opsNonEmptyCheck (extractOperations content) = true
  · simp only [h1, if_true]
    cases extractOperations content with
    | none => exact noNew_pureS _ _
    | some v => exact noNewT_applyOpsFromJson orc v
  · simp only [h1, if_false]
    by_cases h2 : ¬ jsIncludes content "```json" = true ∧
        ¬ jsIncludes content "operations" = true
    · rw [if_pos h2]
      by_cases h3 : agentRoles.contains agent
      · simp only [h3, if_true]
        refine noNew_bindS _ _ _ (noNewT_streamResponse orc _ _ _) ?_
        intro rc
        by_cases h4 : opsNonEmptyCheck (extractOperations rc) = true
        · simp only [h4, if_true]
          cases extractOperations rc with
          | none => exact noNew_pureS _ _
          | some v => exact noNewT_applyOpsFromJson orc v
        · simp only [h4, if_false]
          exact noNew_pureS _ _
      · simp only [h3, Bool.false_eq_true, if_false]
        exact noNew_throwS _ _
    · rw [if_neg h2]
      exact noNew_pureS _ _

theorem noNewT_expertTurn (orc : Oracles) (round pcc : Nat)
    (currentAgent : Option String) :
    NoNew isTerminal (expertTurn orc round pcc currentAgent) := by
  unfold expertTurn
  refine noNew_bindS _ _ _ (noNew_emit _ _ rfl) ?_
  intro _
  cases currentAgent with
  | none => exact noNew_throwS _ _
  | some agent =>
      by_cases h : agentRoles.contains agent
      · simp only [h, if_true]
        refine noNew_bindS _ _ _ (noNewT_streamResponse orc _ _ _) ?_
        intro resp
        refine noNew_bindS _ _ _ (noNew_modifyS _ _ (fun s => rfl)) ?_
        intro _
        refine noNew_bindS _ _ _ (noNewT_applyOrRemind orc _ _ _ _) ?_
        intro _
        exact noNew_pureS _ _
      · simp only [h, Bool.false_eq_true, if_false]
        exact noNew_throwS _ _

theorem noNewT_chainLoop (orc : Oracles) (cfg : Config) (round : Nat) :
    ∀ fuel agent pcc, NoNew isTerminal (chainLoop orc cfg round fuel agent pcc) := by
  intro fuel
  induction fuel with
  | zero => intro agent pcc; exact noNew_pureS _ _
  | succ n ih =>
      intro agent pcc
      unfold chainLoop
      refine noNew_bindS _ _ _ (noNewT_expertTurn orc _ _ _) ?_
      intro resp
      cases handoffStep cfg.INCLUDE_PERSONAS
          (processAgentResponse cfg.INCLUDE_PERSONAS resp) with
      | none => exact noNew_pureS _ _
      | some nextAgent =>
          refine noNew_bindS _ _ _ (noNew_modifyS _ _ (fun s => rfl)) ?_
          intro _
          exact ih _ _

theorem noNewT_runRound (orc : Oracles) (cfg : Config) (round : Nat) :
    NoNew isTerminal (runRound orc cfg round) := by
  unfold runRound
  refine noNew_bindS _ _ _ (noNew_modifyS _ _ (fun s => rfl)) ?_
  intro _
  refine noNew_bindS _ _ _ (noNew_emit _ _ rfl) ?_
  intro _
  refine noNew_bindS _ _ _ (noNew_getS _) ?_
  intro s0
  refine noNew_bindS _ _ _ (noNewT_streamResponse orc _ _ _) ?_
  intro sel
  refine noNew_bindS _ _ _ (noNew_modifyS _ _ (fun s => rfl)) ?_
  intro _
  refine noNew_bindS _ _ _ (noNew_modifyS _ _ (fun s => rfl)) ?_
  intro _
  refine noNew_bindS _ _ _ (noNewT_chainLoop orc cfg round _ _ _) ?_
  intro _
  exact noNew_modifyS _ _ (fun s => rfl)

theorem noNewT_runRounds (orc : Oracles) (cfg : Config) :
    ∀ remaining round, NoNew isTerminal (runRounds orc cfg round remaining) := by
  intro remaining
  induction remaining with
  | zero => intro round; exact noNew_pureS _ _
  | succ n ih =>
      intro round
      exact noNew_bindS _ _ _ (noNewT_runRound orc cfg round) (fun _ => ih _)

theorem noNewT_initialDraft (orc : Oracles) :
    NoNew isTerminal (initialDraft orc) := by
  unfold initialDraft
  refine noNew_bindS _ _ _ (noNew_emit _ _ rfl) ?_
  intro _
  refine noNew_bindS _ _ _ (noNewT_streamResponse orc _ _ _) ?_
  intro c0
  refine noNew_bindS _ _ _ (noNew_modifyS _ _ (fun s => rfl)) ?_
  intro _
  by_cases h1 : opsTruthyCheck (extractOperations c0) = true
  · simp only [h1, if_true]
    cases extractOperations c0 with
    | none => exact noNew_pureS _ _
    | some v => exact noNewT_applyOpsFromJson orc v
  · simp only [h1, if_false]
    by_cases h2 : ¬ jsIncludes c0 "```json" = true ∧
        ¬ jsIncludes c0 "operations" = true
    · rw [if_pos h2]
      refine noNew_bindS _ _ _ (noNewT_streamResponse orc _ _ _) ?_
      intro rc
      by_cases h3 : opsTruthyCheck (extractOperations rc) = true
      · simp only [h3, if_true]
        cases extractOperations rc with
        | none => exact noNew_pureS _ _
        | some v => exact noNewT_applyOpsFromJson orc v
      · simp only [h3, if_false]
        exact noNew_pureS _ _
    · rw [if_neg h2]
      exact noNew_pureS _ _

theorem noNewT_sessionMain (orc : Oracles) (cfg : Config) :
    NoNew isTerminal (sessionMain orc cfg) := by
  unfold sessionMain
  refine noNew_bindS _ _ _ (noNew_emit _ _ rfl) ?_
  intro _
  refine noNew_bindS _ _ _ (noNewT_streamResponse orc _ _ _) ?_
  intro m0
  refine noNew_bindS _ _ _ (noNew_modifyS _ _ (fun s => rfl)) ?_
  intro _
  refine noNew_bindS _ _ _ (noNewT_initialDraft orc) ?_
  intro _
  refine noNew_bindS _ _ _ (noNewT_runRounds orc cfg _ _) ?_
  intro _
  refine noNew_bindS _ _ _ (noNew_emit _ _ rfl) ?_
  intro _
  refine noNew_bindS _ _ _ (noNewT_streamResponse orc _ _ _) ?_
  intro fs
  refine noNew_bindS _ _ _ (noNew_modifyS _ _ (fun s => rfl)) ?_
  intro _
  exact noNew_emit _ _ rfl

/-- C7.  Every session run emits exactly one terminal event (`complete` or
`error`) and it is the last event of the stream — in particular no
`complete` ever follows an `error`. -/
theorem session_exactly_one_terminal (orc : Oracles) (cfg : Config)
    (topic : String) :
    (sessionEvents orc cfg topic).countP isTerminal = 1 ∧
    ∃ e, (sessionEvents orc cfg topic).getLast? = some e ∧
      isTerminal e = true := by
  obtain ⟨mid, hmid, hnt⟩ := noNewT_sessionMain orc cfg initialState
  have hcount : mid.countP isTerminal = 0 :=
    List.countP_eq_zero.mpr (fun e he => by simp [hnt e he])
  cases hrun : sessionMain orc cfg initialState with
  | mk r s' =>
    rw [hrun] at hmid
    have hmid' : s'.events = mid := by simpa using hmid
    cases r with
    | ok a =>
        have hsb : sessionBody orc cfg topic initialState =
            (.ok (), { s' with events := s'.events ++
              [.complete topic s'.conversation s'.flashcards] }) := by
          unfold sessionBody
          simp only [bind_eq_bindS, bindS, hrun, getS, emit, modifyS]
        unfold sessionEvents
        rw [hsb]
        simp only [hmid']
        constructor
        · rw [List.countP_append, hcount]
          simp [List.countP_cons, isTerminal]
        · exact ⟨_, List.getLast?_concat _, rfl⟩
    | error e =>
        have hsb : sessionBody orc cfg topic initialState = (.error e, s') := by
          unfold sessionBody
          simp only [bind_eq_bindS, bindS, hrun]
        unfold sessionEvents
        rw [hsb]
        simp only [hmid']
        constructor
        · rw [List.countP_append, hcount]
          simp [List.countP_cons, isTerminal]
        · exact ⟨_, List.getLast?_concat _, rfl⟩

/-! ## The hand-off chain bound -/

/-- The chain's invariant: started with `fuel` remaining transfers, the
recorded pass counter never exceeds `max` of its start value and
`passChainCount + fuel`, and a normally-ended chain returns at most
`passChainCount + fuel`. -/
theorem chainLoop_bound (orc : Oracles) (cfg : Config) (round : Nat) :
    ∀ fuel agent pcc s,
      ((chainLoop orc cfg round fuel agent pcc s).2.currentPassChain ≤
        max s.currentPassChain (pcc + fuel)) ∧
      (∀ r s', chainLoop orc cfg round fuel agent pcc s = (.ok r, s') →
        r ≤ pcc + fuel) := by
  intro fuel
  induction fuel with
  | zero =>
      intro agent pcc s
      constructor
      · simp [chainLoop, pureS]
      · intro r s' h
        simp [chainLoop, pureS] at h
        omega
  | succ n ih =>
      intro agent pcc s
      have hkeep : Keeps (fun st => st.currentPassChain)
          (expertTurn orc round pcc agent) :=
        keeps_expertTurn _ orc round pcc agent (fun _ _ => rfl) (fun _ _ => rfl)
          (fun _ _ => rfl) (fun _ _ _ => rfl) (fun _ _ => rfl)
      unfold chainLoop
      simp only [bind_eq_bindS, bindS]
      cases hx : expertTurn orc round pcc agent s with
      | mk xr s1 =>
        have hs1 : s1.currentPassChain = s.currentPassChain := by
          have h := hkeep s; rw [hx] at h; exact h
        cases xr with
        | error e =>
            dsimp only
            constructor
            · rw [hs1]
              exact le_max_left _ _
            · intro r s' h
              exact absurd h (by simp)
        | ok resp =>
            dsimp only
            cases hh : handoffStep cfg.INCLUDE_PERSONAS
                (processAgentResponse cfg.INCLUDE_PERSONAS resp) with
            | none =>
                dsimp only [pureS]
                constructor
                · rw [hs1]
                  exact le_max_left _ _
                · intro r s' h
                  have hpr : pcc = r := by
                    simpa using congrArg (fun p => p.1) h
                  omega
            | some nextAgent =>
                dsimp only [bind_eq_bindS, bindS, modifyS]
                have hrec := ih (some nextAgent) (pcc + 1)
                  { s1 with currentPassChain := pcc + 1 }
                constructor
                · refine le_trans hrec.1 ?_
                  have hmax : max (({ s1 with currentPassChain := pcc + 1 } :
                      SessionState)).currentPassChain (pcc + 1 + n) = pcc + 1 + n := by
                    show max (pcc + 1) (pcc + 1 + n) = pcc + 1 + n
                    exact Nat.max_eq_right (by omega)
                  rw [hmax]
                  refine le_trans (le_of_eq (by omega)) (le_max_right s.currentPassChain _)
                · intro r s' h
                  have hr := hrec.2 r s' h
                  omega

/-- C1.  A round's hand-off chain, as the round loop starts it
(`passChainCount = 0`, variant `MAX_EXPERT_PASSES`), never performs more
than `MAX_EXPERT_PASSES` transfers, regardless of how many valid hand-off
directives the turn contents contain: the recorded pass counter stays
bounded by `MAX_EXPERT_PASSES` and so is the returned final count. -/
theorem handoff_chain_never_exceeds_max (orc : Oracles) (cfg : Config)
    (round : Nat) (agent : Option String) (s : SessionState)
    (hs : s.currentPassChain ≤ cfg.MAX_EXPERT_PASSES) :
    ((chainLoop orc cfg round cfg.MAX_EXPERT_PASSES agent 0 s).2.currentPassChain ≤
      cfg.MAX_EXPERT_PASSES) ∧
    (∀ r s', chainLoop orc cfg round cfg.MAX_EXPERT_PASSES agent 0 s =
        (.ok r, s') → r ≤ cfg.MAX_EXPERT_PASSES) := by
  have h := chainLoop_bound orc cfg round cfg.MAX_EXPERT_PASSES agent 0 s
  constructor
  · refine le_trans h.1 ?_
    omega
  · intro r s' hr
    have := h.2 r s' hr
    omega

/-- Witness for C1: a solo-roster chain with `MAX_EXPERT_PASSES = 2` and a
self-hand-off on the first turn stays within the cap. -/
theorem handoff_chain_never_exceeds_max_witness :
    ((chainLoop (scriptedOracle (fun n => if n = 0 then "@explainer go" else "ok"))
        (soloConfig 2) 0 (soloConfig 2).MAX_EXPERT_PASSES (some "explainer") 0
        initialState).2.currentPassChain ≤ (soloConfig 2).MAX_EXPERT_PASSES) :=
  (handoff_chain_never_exceeds_max
    (scriptedOracle (fun n => if n = 0 then "@explainer go" else "ok"))
    (soloConfig 2) 0 (some "explainer") initialState (by decide)).1

/-! ## Hand-off decision (C5) and expert selection (C6) -/

/-- `processAgentResponse` returns either a detected agent with the
return-to-moderator flag clear, or no agent with the flag set. -/
theorem processAgentResponse_shape (P : List String) (c : String) :
    (processAgentResponse P c).shouldReturnToModerator =
      (processAgentResponse P c).nextAgent.isNone := by
  unfold processAgentResponse
  dsimp only
  split
  · rfl
  · split
    · rfl
    · split
      · rfl
      · split <;> rfl

/-- Counterexample to C5 as stated: the transfer check (route.ts 625)
requires only membership in `INCLUDE_PERSONAS`, not distinctness from the
current speaker.  With the roster `["explainer"]`, the current speaker
`explainer` saying `"@explainer go"` hands control to itself: the pass
counter increments and a second `explainer` turn
(`messageId "explainer-0-1"`) takes place. -/
theorem handoff_distinctness_counterexample :
    (processAgentResponse ["explainer"] "@explainer go").nextAgent =
      some "explainer" ∧
    (chainLoop (scriptedOracle (fun n => if n = 0 then "@explainer go" else "ok"))
        (soloConfig 2) 0 2 (some "explainer") 0
        initialState).2.currentPassChain = 1 ∧
    Event.message_start "explainer-0-1"
        { role := "explainer", content := "", timestamp := 0,
          speaker := "Dr. Emma Chen (Explainer)" } ∈
      (chainLoop (scriptedOracle (fun n => if n = 0 then "@explainer go" else "ok"))
        (soloConfig 2) 0 2 (some "explainer") 0 initialState).2.events := by
  refine ⟨rfl, rfl, ?_⟩
  decide

/-- C5 amended.  After a turn, control transfers to the persona named by
the detected hand-off directive exactly when that persona is in the
session's `INCLUDE_PERSONAS` roster (distinctness from the current
speaker is not required); in every other case the hand-off decision is
empty and the chain ends. -/
theorem handoff_transfer_enabled_only (P : List String) (c a : String) :
    (handoffStep P (processAgentResponse P c) = some a →
        P.contains a = true ∧ (processAgentResponse P c).nextAgent = some a) ∧
    ((processAgentResponse P c).nextAgent = some a → P.contains a = true →
        handoffStep P (processAgentResponse P c) = some a) := by
  have hsh := processAgentResponse_shape P c
  unfold handoffStep
  cases hna : (processAgentResponse P c).nextAgent with
  | none =>
      rw [hsh, hna]
      constructor
      · intro h
        simp at h
      · intro h
        simp at h
  | some b =>
      rw [hsh, hna]
      simp only [Option.isNone_some, Bool.false_eq_true, or_self, if_false]
      constructor
      · intro h
        by_cases hb : P.contains b = true
        · rw [if_pos hb] at h
          have hba : b = a := by simpa using h
          exact ⟨hba ▸ hb, hba ▸ rfl⟩
        · rw [if_neg hb] at h
          exact absurd h (by simp)
      · intro h1 h2
        have hba : b = a := by simpa using h1
        subst hba
        rw [if_pos h2]

/-- Witness for C5 (amended): an enabled `@coach` mention transfers to
`coach`. -/
theorem handoff_transfer_enabled_only_witness :
    handoffStep ["explainer", "coach"]
      (processAgentResponse ["explainer", "coach"] "@coach over to you") =
      some "coach" :=
  (handoff_transfer_enabled_only ["explainer", "coach"] "@coach over to you"
    "coach").2 rfl (by decide)

/-- Counterexample to C6 as stated: with the non-empty roster
`["explainer"]` and `lastAgent = "explainer"` (its sole member spoke last
round), `availableExperts` is empty and the selection is `undefined` —
for a singleton roster the second round's selection stalls. -/
theorem select_expert_undefined_counterexample :
    (["explainer"] : List String) ≠ [] ∧
    availableExpertsOf ["explainer"] (some "explainer") = [] ∧
    selectExpert ["explainer"] (some "explainer") "pick the explainer" =
      none := by
  refine ⟨by decide, rfl, rfl⟩

/-- C6 amended.  Whenever at least one enabled persona differs from last
round's speaker, the selection yields a defined persona from that pool;
and when the moderator's text names none of them, the deterministic
fallback — the first available persona — is selected. -/
theorem select_expert_defined (P : List String) (lastAgent : Option String)
    (sel : String)
    (h : availableExpertsOf P lastAgent ≠ []) :
    (∃ e, selectExpert P lastAgent sel = some e ∧
        e ∈ availableExpertsOf P lastAgent) ∧
    ((∀ p ∈ availableExpertsOf P lastAgent,
        jsIncludes (asciiLower sel) (asciiLower p) = false) →
      selectExpert P lastAgent sel = (availableExpertsOf P lastAgent).head?) := by
  unfold selectExpert
  constructor
  · cases hf : (availableExpertsOf P lastAgent).find?
        (fun e => jsIncludes (asciiLower sel) (asciiLower e)) with
    | some e =>
        exact ⟨e, by dsimp only; rw [hf], List.mem_of_find?_eq_some hf⟩
    | none =>
        cases hl : availableExpertsOf P lastAgent with
        | nil => exact absurd hl h
        | cons x xs =>
            rw [hl] at hf
            refine ⟨x, ?_, List.mem_cons_self x xs⟩
            dsimp only
            rw [hf]
            rfl
  · intro hnone
    have hf : (availableExpertsOf P lastAgent).find?
        (fun e => jsIncludes (asciiLower sel) (asciiLower e)) = none :=
      List.find?_eq_none.mpr (fun p hp => by simp [hnone p hp])
    dsimp only
    rw [hf]

/-- Witness for C6 (amended): a two-persona roster with `explainer` spoken
last yields `coach`, the fallback head of the available pool. -/
theorem select_expert_defined_witness :
    (∃ e, selectExpert ["explainer", "coach"] (some "explainer") "hm" = some e ∧
        e ∈ availableExpertsOf ["explainer", "coach"] (some "explainer")) :=
  (select_expert_defined ["explainer", "coach"] (some "explainer") "hm"
    (by decide)).1

/-- C8.  The directive-parsing step is total: for every string input the
operation extraction returns a value — the `try` body's only exception
source (`JSON.parse`) is caught and collapsed to `null` — and hand-off
detection returns a (possibly agent-less) result.  No exception escapes. -/
theorem directive_parser_total (P : List String) (content : String) :
    (∃ r : Option Json, extractJSON content = r ∧
        (extractJSONE content = .ok r ∨
          (r = none ∧ ∃ e, extractJSONE content = .error e))) ∧
    (∃ res : AgentRouteResult, processAgentResponse P content = res) := by
  constructor
  · cases h : extractJSONE content with
    | ok v => exact ⟨v, by simp [extractJSON, h], Or.inl rfl⟩
    | error e => exact ⟨none, by simp [extractJSON, h], Or.inr ⟨rfl, e, rfl⟩⟩
  · exact ⟨processAgentResponse P content, rfl⟩

/-! ## Substring lemmas: contents without the marker substrings extract
nothing -/

/-- `startsWithL` decomposes the list. -/
theorem startsWithL_decomp (n : List Char) :
    ∀ s, startsWithL n s = true → s = n ++ s.drop n.length := by
  induction n with
  | nil => intro s _; simp
  | cons p ps ih =>
      intro s hs
      cases s with
      | nil => simp [startsWithL] at hs
      | cons c cs =>
          simp only [startsWithL, Bool.and_eq_true, decide_eq_true_eq] at hs
          obtain ⟨hpc, hrest⟩ := hs
          have := ih cs (by simpa using hrest)
          simp [hpc, List.drop]
          exact this

/-- A needle starts every list it is a prefix of. -/
theorem startsWithL_append (n t : List Char) : startsWithL n (n ++ t) = true := by
  induction n with
  | nil => rfl
  | cons p ps ih => simp [startsWithL, ih]

/-- A successful `splitFirst` is a decomposition. -/
theorem splitFirst_some_decomp (n : List Char) :
    ∀ s b a, splitFirst n s = some (b, a) → s = b ++ n ++ a := by
  intro s
  induction s with
  | nil =>
      intro b a h
      unfold splitFirst at h
      by_cases hn : n = []
      · simp only [hn, if_true, if_pos, Option.some.injEq, Prod.mk.injEq] at h
        obtain ⟨hb, ha⟩ := h
        simp [hn, ← hb, ← ha]
      · simp [hn] at h
  | cons c cs ih =>
      intro b a h
      unfold splitFirst at h
      by_cases hsw : startsWithL n (c :: cs) = true
      · rw [if_pos hsw] at h
        simp only [Option.some.injEq, Prod.mk.injEq] at h
        obtain ⟨hb, ha⟩ := h
        rw [← hb, ← ha]
        simpa using startsWithL_decomp n (c :: cs) hsw
      · rw [if_neg hsw] at h
        cases hcs : splitFirst n cs with
        | none => rw [hcs] at h; simp at h
        | some p =>
            rw [hcs] at h
            obtain ⟨b', a'⟩ := p
            have h' : (some (c :: b', a') : Option (List Char × List Char)) =
                some (b, a) := h
            simp only [Option.some.injEq, Prod.mk.injEq] at h'
            obtain ⟨hb, ha⟩ := h'
            have hdec := ih b' a' hcs
            rw [← hb, ← ha]
            simp [hdec]

/-- Any decomposition makes `splitFirst` hit. -/
theorem splitFirst_isSome_of_decomp (n : List Char) :
    ∀ x y, (splitFirst n (x ++ n ++ y)).isSome = true := by
  intro x
  induction x with
  | nil =>
      intro y
      cases hs : (([] : List Char) ++ n ++ y) with
      | nil =>
          have hn : n = [] := by
            cases n with
            | nil => rfl
            | cons a as => simp at hs
          simp [splitFirst, hn]
      | cons c cs =>
          simp only [List.nil_append] at hs
          unfold splitFirst
          rw [← hs, if_pos (startsWithL_append n y)]
          rfl
  | cons c cs ih =>
      intro y
      unfold splitFirst
      by_cases hsw : startsWithL n (c :: (cs ++ n ++ y)) = true
      · simp only [List.cons_append, List.append_assoc] at hsw ⊢
        rw [if_pos (by simpa using hsw)]
        rfl
      · simp only [List.cons_append, List.append_assoc] at hsw ⊢
        rw [if_neg (by simpa using hsw)]
        have := ih y
        simp only [List.append_assoc] at this
        simpa using this

/-- A hit of `matchOperationsBlock` forces a `"operations"` occurrence
(with its quotes, hence in particular the bare word). -/
theorem matchOperationsBlock_occurrence :
    ∀ l r, matchOperationsBlock l = some r →
      ∃ x y, l = x ++ opsKey ++ y := by
  intro l
  induction l with
  | nil => intro r h; simp [matchOperationsBlock] at h
  | cons c cs ih =>
      intro r h
      unfold matchOperationsBlock at h
      by_cases hc : c = '{'
      · rw [if_pos hc] at h
        cases hsp : splitFirst opsKey cs with
        | some p =>
            obtain ⟨pre, after⟩ := p
            rw [hsp] at h
            have hdec := splitFirst_some_decomp opsKey cs pre after hsp
            exact ⟨c :: pre, after, by simp [hdec]⟩
        | none =>
            rw [hsp] at h
            obtain ⟨x, y, hxy⟩ := ih r h
            exact ⟨c :: x, y, by simp [hxy]⟩
      · rw [if_neg hc] at h
        obtain ⟨x, y, hxy⟩ := ih r h
        exact ⟨c :: x, y, by simp [hxy]⟩

/-- A content containing neither the fence marker nor the bare word
`operations` yields no extractable block and hence no operations value. -/
theorem extract_none_of_no_markers (c : String)
    (h1 : jsIncludes c "```json" = false)
    (h2 : jsIncludes c "operations" = false) :
    extractJSON c = none ∧ extractOperations c = none := by
  have hfence : matchJsonFence c.toList = none := by
    unfold jsIncludes at h1
    unfold matchJsonFence
    cases hsp : splitFirst ("```json".toList) c.toList with
    | none => rfl
    | some p => rw [hsp] at h1; simp at h1
  have hops : matchOperationsBlock c.toList = none := by
    cases hm : matchOperationsBlock c.toList with
    | none => rfl
    | some r =>
        obtain ⟨x, y, hxy⟩ := matchOperationsBlock_occurrence _ r hm
        have hkey : opsKey = ['"'] ++ "operations".toList ++ ['"'] := by decide
        have : c.toList = (x ++ ['"']) ++ "operations".toList ++ (['"'] ++ y) := by
          rw [hxy, hkey]; simp
        have hsome := splitFirst_isSome_of_decomp ("operations".toList)
          (x ++ ['"']) (['"'] ++ y)
        rw [← this] at hsome
        unfold jsIncludes at h2
        rw [hsome] at h2
        exact absurd h2 (by simp)
  have hstr : extractJSONStr c = none := by
    unfold extractJSONStr
    rw [hfence, hops]
    rfl
  have hjs : extractJSON c = none := by
    unfold extractJSON extractJSONE
    rw [hstr]
  exact ⟨hjs, by unfold extractOperations; rw [hjs]; rfl⟩

/-! ## Run facts for `streamResponse`, toward the reminder policy (C2) -/

/-- The token loop: returns the accumulated content, appends only token
events (no `message_start`), and touches neither the flashcards nor the
call counter. -/
theorem emitChunks_facts (messageId : String) :
    ∀ chunks acc s,
      (emitChunks messageId chunks acc s).1 =
        Except.ok (chunks.foldl (fun a b => a ++ b) acc) ∧
      (∃ midE, (emitChunks messageId chunks acc s).2.events = s.events ++ midE ∧
        ∀ e ∈ midE, isStartEvent e = false) ∧
      (emitChunks messageId chunks acc s).2.flashcards = s.flashcards ∧
      (emitChunks messageId chunks acc s).2.calls = s.calls := by
  intro chunks
  induction chunks with
  | nil =>
      intro acc s
      exact ⟨rfl, ⟨[], by simp [emitChunks, pureS], by simp⟩, rfl, rfl⟩
  | cons chunk rest ih =>
      intro acc s
      unfold emitChunks
      dsimp only [bind_eq_bindS, bindS, modifyS, emit]
      obtain ⟨hv, ⟨midE, hE, hnE⟩, hfl, hcl⟩ := ih (acc ++ chunk) _
      refine ⟨hv, ⟨Event.message_token messageId chunk (acc ++ chunk) :: midE,
        ?_, ?_⟩, by simpa using hfl, by simpa using hcl⟩
      · rw [hE]
        simp
      · intro e he
        rcases List.mem_cons.mp he with h | h
        · rw [h]; rfl
        · exact hnE e h

/-- One completion call: its value is the concatenated chunks (or the
provider failure), its event extension is one `message_start` followed by
start-free events, the flashcards are untouched and the call counter
advances by one. -/
theorem streamResponse_facts (orc : Oracles) (messageId role speaker : String)
    (s : SessionState) :
    (streamResponse orc messageId role speaker s).1 =
      (if (orc.chat s.calls).fail then Except.error "completion request failed"
       else Except.ok (chunksConcat (orc.chat s.calls))) ∧
    (∃ rest, (streamResponse orc messageId role speaker s).2.events =
        s.events ++ Event.message_start messageId
          { role := role, content := "", timestamp := 0, speaker := speaker } :: rest ∧
      ∀ e ∈ rest, isStartEvent e = false) ∧
    (streamResponse orc messageId role speaker s).2.flashcards = s.flashcards ∧
    (streamResponse orc messageId role speaker s).2.calls = s.calls + 1 := by
  unfold streamResponse
  dsimp only [bind_eq_bindS, bindS, modifyS, emit, getS]
  cases hec : emitChunks messageId (orc.chat s.calls).chunks "" _ with
  | mk v s3 =>
      obtain ⟨hv, ⟨midE, hE, hnE⟩, hfl, hcl⟩ := emitChunks_facts messageId
        (orc.chat s.calls).chunks "" _
      rw [hec] at hv hE hfl hcl
      dsimp only at hv hE hfl hcl
      rw [hv]
      dsimp only
      by_cases hf : (orc.chat s.calls).fail
      · rw [if_pos hf]
        simp only [hf, if_true]
        dsimp only [throwS]
        refine ⟨rfl, ⟨midE, ?_, hnE⟩, by simpa using hfl, by simpa using hcl⟩
        rw [hE]
        simp
      · rw [if_neg hf]
        simp only [hf, if_false]
        dsimp only [bind_eq_bindS, bindS, emit, modifyS, pureS]
        refine ⟨by simp [chunksConcat, hf], ⟨midE ++
          [Event.message_complete messageId
            ((orc.chat s.calls).chunks.foldl (fun a b => a ++ b) "")], ?_, ?_⟩,
          by simpa using hfl, by simpa using hcl⟩
        · rw [hE]
          simp
        · intro e he
          rcases List.mem_append.mp he with h | h
          · exact hnE e h
          · rcases List.mem_singleton.mp h with rfl
            rfl

/-- `applyOpsFromJson` starts no persona turn. -/
theorem noNewS_applyOpsFromJson (orc : Oracles) (v : Json) :
    NoNew isStartEvent (applyOpsFromJson orc v) := by
  unfold applyOpsFromJson
  cases v with
  | arr elems =>
      refine noNew_bindS _ _ _ (noNew_getS _) ?_
      intro s
      refine noNew_bindS _ _ _ (noNew_modifyS _ _ (fun s' => rfl)) ?_
      intro _
      exact noNew_emit _ _ rfl
  | null => exact noNew_throwS _ _
  | bool b => exact noNew_throwS _ _
  | num l => exact noNew_throwS _ _
  | str st => exact noNew_throwS _ _
  | obj fs => exact noNew_throwS _ _

/-- An action adding no event satisfying `P` leaves the `P`-count alone. -/
theorem countP_eq_of_noNew {α : Type} (P : Event → Bool) (m : SessM α)
    (hm : NoNew P m) (s : SessionState) :
    ((m s).2.events).countP P = s.events.countP P := by
  obtain ⟨mid, h, hn⟩ := hm s
  rw [h, List.countP_append]
  have hz : mid.countP P = 0 :=
    List.countP_eq_zero.mpr (fun e he => by simp [hn e he])
  omega

/-- Counting one `message_start` at the head of a start-free tail. -/
theorem countStarts_append_start (pre : List Event) (messageId : String)
    (msg : Message) (rest : List Event)
    (hn : ∀ e ∈ rest, isStartEvent e = false) :
    countStarts (pre ++ Event.message_start messageId msg :: rest) =
      countStarts pre + 1 := by
  unfold countStarts
  rw [List.countP_append, List.countP_cons]
  have hz : rest.countP isStartEvent = 0 :=
    List.countP_eq_zero.mpr (fun e he => by simp [hn e he])
  simp [hz, isStartEvent]

/-- Counterexample to C2 as stated: the content `"operations"` yields no
extractable operations, yet — because the reminder guard (route.ts 588)
only fires when the content contains neither the substring `"```json"`
nor `"operations"` — no reminder turn is issued: the expert-turn
extraction step emits no event at all. -/
theorem reminder_policy_counterexample :
    extractOperations "operations" = none ∧
    (applyOrRemind (scriptedOracle (fun _ => "ok")) 0 0 "explainer"
      "operations" initialState).2.events = [] := by
  exact ⟨rfl, rfl⟩

/-- An event that starts no persona turn in particular starts no cardsmith
reminder turn. -/
theorem isCsReminderStart_eq_false (e : Event) (h : isStartEvent e = false) :
    isCsReminderStart e = false := by
  cases e <;> simp_all [isStartEvent, isCsReminderStart]

/-- Start-free event lists contain no cardsmith-reminder start. -/
theorem countCs_zero_of_no_starts (l : List Event)
    (h : ∀ e ∈ l, isStartEvent e = false) :
    l.countP isCsReminderStart = 0 :=
  List.countP_eq_zero.mpr
    (fun e he => by simp [isCsReminderStart_eq_false e (h e he)])

/-- `applyOpsFromJson` starts no cardsmith-reminder turn. -/
theorem noNewCs_applyOpsFromJson (orc : Oracles) (v : Json) :
    NoNew isCsReminderStart (applyOpsFromJson orc v) := by
  unfold applyOpsFromJson
  cases v with
  | arr elems =>
      refine noNew_bindS _ _ _ (noNew_getS _) ?_
      intro s
      refine noNew_bindS _ _ _ (noNew_modifyS _ _ (fun s' => rfl)) ?_
      intro _
      exact noNew_emit _ _ rfl
  | null => exact noNew_throwS _ _
  | bool b => exact noNew_throwS _ _
  | num l => exact noNew_throwS _ _
  | str st => exact noNew_throwS _ _
  | obj fs => exact noNew_throwS _ _

/-- The reminder policy of the expert-chain extraction step
(route.ts 585–616): at most one reminder; exactly one — to the same
persona — precisely when the content carries neither marker substring
(and none at all when it carries one); a fruitless reminder leaves the
store unchanged. -/
theorem applyOrRemind_reminder_facts (orc : Oracles) (round pcc : Nat)
    (agent content : String) (s : SessionState)
    (hagent : agentRoles.contains agent = true) :
    countStarts ((applyOrRemind orc round pcc agent content s).2.events) ≤
      countStarts s.events + 1 ∧
    ((jsIncludes content "```json" = false ∧
        jsIncludes content "operations" = false) →
      (∃ rest, (applyOrRemind orc round pcc agent content s).2.events =
          s.events ++ Event.message_start
            (agent ++ "-reminder-" ++ toString round ++ "-" ++ toString pcc)
            { role := agent, content := "", timestamp := 0,
              speaker := getAgentDisplayName agent } :: rest ∧
          ∀ e ∈ rest, isStartEvent e = false) ∧
      (opsNonEmptyCheck (extractOperations (chunksConcat (orc.chat s.calls))) =
          false →
        (applyOrRemind orc round pcc agent content s).2.flashcards =
          s.flashcards)) ∧
    ((jsIncludes content "```json" = true ∨
        jsIncludes content "operations" = true) →
      countStarts ((applyOrRemind orc round pcc agent content s).2.events) =
        countStarts s.events) := by
  unfold applyOrRemind
  dsimp only
  by_cases h1 : opsNonEmptyCheck (extractOperations content) = true
  · rw [if_pos h1]
    cases hx : extractOperations content with
    | none => rw [hx] at h1; exact absurd h1 (by decide)
    | some v =>
        dsimp only
        have hcnt := countP_eq_of_noNew isStartEvent _
          (noNewS_applyOpsFromJson orc v) s
        refine ⟨?_, ?_, ?_⟩
        · unfold countStarts
          omega
        · intro ⟨hm1, hm2⟩
          have hnone := (extract_none_of_no_markers content hm1 hm2).2
          rw [hx] at hnone
          exact absurd hnone (by simp)
        · intro _
          unfold countStarts
          omega
  · rw [if_neg h1]
    by_cases h2 : ¬ jsIncludes content "```json" = true ∧
        ¬ jsIncludes content "operations" = true
    · rw [if_pos h2, if_pos hagent]
      dsimp only [bind_eq_bindS, bindS]
      cases hsr : streamResponse orc
          (agent ++ "-reminder-" ++ toString round ++ "-" ++ toString pcc)
          agent (getAgentDisplayName agent) s with
      | mk rv s1 =>
          obtain ⟨hval, ⟨rest1, hE1, hn1⟩, hfl1, hcl1⟩ := streamResponse_facts
            orc (agent ++ "-reminder-" ++ toString round ++ "-" ++ toString pcc)
            agent (getAgentDisplayName agent) s
          rw [hsr] at hval hE1 hfl1
          dsimp only at hval hE1 hfl1
          cases rv with
          | error e =>
              dsimp only
              refine ⟨?_, fun _ => ⟨⟨rest1, hE1, hn1⟩, fun _ => hfl1⟩,
                fun hor => hor.elim (fun h => absurd h h2.1)
                  (fun h => absurd h h2.2)⟩
              rw [hE1, countStarts_append_start s.events _ _ rest1 hn1]
          | ok rc =>
              dsimp only
              have hrc : rc = chunksConcat (orc.chat s.calls) := by
                by_cases hfail : (orc.chat s.calls).fail = true
                · rw [if_pos hfail] at hval
                  exact absurd hval (by simp)
                · rw [if_neg hfail] at hval
                  simpa using hval
              by_cases h4 : opsNonEmptyCheck (extractOperations rc) = true
              · rw [if_pos h4]
                cases hx2 : extractOperations rc with
                | none => rw [hx2] at h4; exact absurd h4 (by decide)
                | some w =>
                    dsimp only
                    obtain ⟨mid2, hE2, hn2⟩ :=
                      noNewS_applyOpsFromJson orc w s1
                    refine ⟨?_, ?_,
                      fun hor => hor.elim (fun h => absurd h h2.1)
                        (fun h => absurd h h2.2)⟩
                    · rw [hE2, hE1]
                      unfold countStarts
                      have hz1 : rest1.countP isStartEvent = 0 :=
                        List.countP_eq_zero.mpr
                          (fun e he => by simp [hn1 e he])
                      have hz2 : mid2.countP isStartEvent = 0 :=
                        List.countP_eq_zero.mpr
                          (fun e he => by simp [hn2 e he])
                      simp only [List.append_assoc, List.cons_append,
                        List.countP_append, List.countP_cons, hz1, hz2,
                        isStartEvent, if_true]
                      norm_num
                    · intro ⟨hm1, hm2⟩
                      refine ⟨⟨rest1 ++ mid2, ?_, ?_⟩, ?_⟩
                      · rw [hE2, hE1]
                        simp
                      · intro e he
                        rcases List.mem_append.mp he with h | h
                        · exact hn1 e h
                        · exact hn2 e h
                      · intro h5
                        rw [← hrc] at h5
                        exact absurd h4 (by simp [h5])
              · rw [if_neg h4]
                dsimp only [pureS]
                refine ⟨?_, fun _ => ⟨⟨rest1, hE1, hn1⟩, fun _ => hfl1⟩,
                  fun hor => hor.elim (fun h => absurd h h2.1)
                    (fun h => absurd h h2.2)⟩
                rw [hE1, countStarts_append_start s.events _ _ rest1 hn1]
    · rw [if_neg h2]
      refine ⟨?_, ?_, ?_⟩
      · exact Nat.le_succ_of_le (le_of_eq rfl)
      · intro ⟨hm1, hm2⟩
        exact absurd ⟨by simp [hm1], by simp [hm2]⟩ h2
      · intro _
        rfl

/-- The reminder policy of the cardsmith initial-draft step
(route.ts 476–507), stated over the `cardsmith-reminder` turn starts: at
most one reminder; when the draft call succeeds with marker-free content,
exactly one reminder — and a fruitless reminder leaves the store
unchanged; none at all when the content carries a marker substring. -/
theorem initialDraft_reminder_facts (orc : Oracles) (s0 : SessionState) :
    countCsReminders ((initialDraft orc s0).2.events) ≤
      countCsReminders s0.events + 1 ∧
    (((orc.chat s0.calls).fail = false ∧
      jsIncludes (chunksConcat (orc.chat s0.calls)) "```json" = false ∧
      jsIncludes (chunksConcat (orc.chat s0.calls)) "operations" = false) →
        countCsReminders ((initialDraft orc s0).2.events) =
          countCsReminders s0.events + 1 ∧
        (opsTruthyCheck (extractOperations
            (chunksConcat (orc.chat (s0.calls + 1)))) = false →
          (initialDraft orc s0).2.flashcards = s0.flashcards)) ∧
    ((jsIncludes (chunksConcat (orc.chat s0.calls)) "```json" = true ∨
      jsIncludes (chunksConcat (orc.chat s0.calls)) "operations" = true) →
        countCsReminders ((initialDraft orc s0).2.events) =
          countCsReminders s0.events) := by
  unfold initialDraft
  dsimp only [bind_eq_bindS, bindS, emit, modifyS]
  cases hsr : streamResponse orc "cardsmith-initial" "cardsmith"
      (getAgentDisplayName "cardsmith")
      { s0 with events := s0.events ++
          [Event.status "Cardsmith is creating initial flashcards..."] } with
  | mk rv s1 =>
      obtain ⟨hval, ⟨rest1, hE1, hn1⟩, hfl1, hcl1⟩ := streamResponse_facts orc
        "cardsmith-initial" "cardsmith" (getAgentDisplayName "cardsmith")
        { s0 with events := s0.events ++
            [Event.status "Cardsmith is creating initial flashcards..."] }
      rw [hsr] at hval hE1 hfl1 hcl1
      dsimp only at hval hE1 hfl1 hcl1
      have hz1 : rest1.countP isCsReminderStart = 0 :=
        countCs_zero_of_no_starts rest1 hn1
      have hinit : isCsReminderStart (Event.message_start "cardsmith-initial"
          { role := "cardsmith", content := "", timestamp := 0,
            speaker := getAgentDisplayName "cardsmith" }) = false := by decide
      have hst : isCsReminderStart
          (Event.status "Cardsmith is creating initial flashcards...") =
          false := rfl
      have hc1 : s1.events.countP isCsReminderStart =
          s0.events.countP isCsReminderStart := by
        rw [hE1]
        simp [List.countP_append, List.countP_cons, hz1, hinit, hst]
      cases rv with
      | error e =>
          dsimp only
          refine ⟨?_, ?_, ?_⟩
          · unfold countCsReminders
            omega
          · intro ⟨hf, hm1, hm2⟩
            rw [hf] at hval
            simp at hval
          · intro _
            unfold countCsReminders
            omega
      | ok c0 =>
          dsimp only
          have hnf : (orc.chat s0.calls).fail = false ∧
              c0 = chunksConcat (orc.chat s0.calls) := by
            by_cases hfail : (orc.chat s0.calls).fail = true
            · rw [if_pos hfail] at hval
              exact absurd hval (by simp)
            · rw [if_neg hfail] at hval
              simp only [Bool.not_eq_true] at hfail
              exact ⟨hfail, by simpa using hval⟩
          obtain ⟨-, hc0⟩ := hnf
          by_cases h3 : opsTruthyCheck (extractOperations c0) = true
          · rw [if_pos h3]
            cases hx : extractOperations c0 with
            | none => rw [hx] at h3; exact absurd h3 (by decide)
            | some v =>
                dsimp only
                obtain ⟨mid2, hE2, hn2⟩ := noNewCs_applyOpsFromJson orc v
                  { s1 with transcript := s1.transcript ++ ["Cardsmith: " ++ c0] }
                have hc2 : ((applyOpsFromJson orc v
                    { s1 with transcript :=
                        s1.transcript ++ ["Cardsmith: " ++ c0] }).2.events).countP
                    isCsReminderStart = s0.events.countP isCsReminderStart := by
                  rw [hE2]
                  dsimp only
                  have hz2 : mid2.countP isCsReminderStart = 0 :=
                    List.countP_eq_zero.mpr (fun e he => by simp [hn2 e he])
                  rw [List.countP_append]
                  omega
                refine ⟨?_, ?_, ?_⟩
                · unfold countCsReminders
                  omega
                · intro ⟨hf, hm1, hm2⟩
                  have hnone := (extract_none_of_no_markers
                    (chunksConcat (orc.chat s0.calls)) hm1 hm2).2
                  rw [← hc0, hx] at hnone
                  exact absurd hnone (by simp)
                · intro _
                  unfold countCsReminders
                  omega
          · rw [if_neg h3]
            by_cases h2 : ¬ jsIncludes c0 "```json" = true ∧
                ¬ jsIncludes c0 "operations" = true
            · rw [if_pos h2]
              dsimp only [bind_eq_bindS, bindS]
              cases hsr2 : streamResponse orc "cardsmith-reminder" "cardsmith"
                  (getAgentDisplayName "cardsmith")
                  { s1 with transcript :=
                      s1.transcript ++ ["Cardsmith: " ++ c0] } with
              | mk rv2 s2 =>
                  obtain ⟨hval2, ⟨rest2, hE2, hn2⟩, hfl2, hcl2⟩ :=
                    streamResponse_facts orc "cardsmith-reminder" "cardsmith"
                      (getAgentDisplayName "cardsmith")
                      { s1 with transcript :=
                          s1.transcript ++ ["Cardsmith: " ++ c0] }
                  rw [hsr2] at hval2 hE2 hfl2 hcl2
                  dsimp only at hval2 hE2 hfl2 hcl2
                  have hone : isCsReminderStart (Event.message_start
                      "cardsmith-reminder"
                      { role := "cardsmith", content := "", timestamp := 0,
                        speaker := getAgentDisplayName "cardsmith" }) =
                      true := rfl
                  have hz2 : rest2.countP isCsReminderStart = 0 :=
                    countCs_zero_of_no_starts rest2 hn2
                  have hcR : s2.events.countP isCsReminderStart =
                      s0.events.countP isCsReminderStart + 1 := by
                    rw [hE2]
                    simp [List.countP_append, List.countP_cons, hone, hz2, hc1]
                  cases rv2 with
                  | error e2 =>
                      dsimp only
                      refine ⟨?_, ?_, ?_⟩
                      · unfold countCsReminders
                        omega
                      · intro ⟨hf, hm1, hm2⟩
                        exact ⟨by unfold countCsReminders; omega,
                          fun _ => by rw [hfl2, hfl1]⟩
                      · intro hor
                        rw [← hc0] at hor
                        exact hor.elim (fun h => absurd h h2.1)
                          (fun h => absurd h h2.2)
                  | ok c1 =>
                      dsimp only
                      have hc1' : c1 = chunksConcat (orc.chat (s0.calls + 1)) := by
                        rw [hcl1] at hval2
                        by_cases hfail2 : (orc.chat (s0.calls + 1)).fail = true
                        · rw [if_pos hfail2] at hval2
                          exact absurd hval2 (by simp)
                        · rw [if_neg hfail2] at hval2
                          simpa using hval2
                      by_cases h5 : opsTruthyCheck (extractOperations c1) = true
                      · rw [if_pos h5]
                        cases hx2 : extractOperations c1 with
                        | none => rw [hx2] at h5; exact absurd h5 (by decide)
                        | some w =>
                            dsimp only
                            obtain ⟨mid3, hE3, hn3⟩ :=
                              noNewCs_applyOpsFromJson orc w s2
                            have hz3 : mid3.countP isCsReminderStart = 0 :=
                              List.countP_eq_zero.mpr
                                (fun e he => by simp [hn3 e he])
                            refine ⟨?_, ?_, ?_⟩
                            · unfold countCsReminders
                              rw [hE3, List.countP_append]
                              omega
                            · intro ⟨hf, hm1, hm2⟩
                              refine ⟨?_, ?_⟩
                              · unfold countCsReminders
                                rw [hE3, List.countP_append]
                                omega
                              · intro h6
                                rw [← hc1'] at h6
                                exact absurd h5 (by simp [h6])
                            · intro hor
                              rw [← hc0] at hor
                              exact hor.elim (fun h => absurd h h2.1)
                                (fun h => absurd h h2.2)
                      · rw [if_neg h5]
                        dsimp only [pureS]
                        refine ⟨?_, ?_, ?_⟩
                        · unfold countCsReminders
                          omega
                        · intro ⟨hf, hm1, hm2⟩
                          exact ⟨by unfold countCsReminders; omega,
                            fun _ => by rw [hfl2, hfl1]⟩
                        · intro hor
                          rw [← hc0] at hor
                          exact hor.elim (fun h => absurd h h2.1)
                            (fun h => absurd h h2.2)
            · rw [if_neg h2]
              dsimp only [pureS]
              refine ⟨?_, ?_, ?_⟩
              · unfold countCsReminders
                omega
              · intro ⟨hf, hm1, hm2⟩
                rw [← hc0] at hm1 hm2
                exact absurd ⟨by simp [hm1], by simp [hm2]⟩ h2
              · intro _
                unfold countCsReminders
                omega

/-- C2 amended.  In both extraction steps of the turn engine — each
expert-chain turn (route.ts 585–616) and the cardsmith initial draft
(route.ts 476–507): at most one reminder turn is ever issued per persona
turn (reminders never cascade); a reminder is issued exactly when the
turn's content contains neither the substring `"```json"` nor
`"operations"` — which in particular implies extraction yields nothing —
and it goes to the same persona; when the content carries a marker
substring, no reminder is issued at all; and if the reminder response
also yields no applicable operations, zero operations are applied (the
card store is unchanged). -/
theorem reminder_policy (orc : Oracles) (round pcc : Nat)
    (agent content : String) (s s0 : SessionState)
    (hagent : agentRoles.contains agent = true) :
    (countStarts ((applyOrRemind orc round pcc agent content s).2.events) ≤
      countStarts s.events + 1) ∧
    ((jsIncludes content "```json" = false ∧
        jsIncludes content "operations" = false) →
      (∃ rest, (applyOrRemind orc round pcc agent content s).2.events =
          s.events ++ Event.message_start
            (agent ++ "-reminder-" ++ toString round ++ "-" ++ toString pcc)
            { role := agent, content := "", timestamp := 0,
              speaker := getAgentDisplayName agent } :: rest ∧
          ∀ e ∈ rest, isStartEvent e = false) ∧
      (opsNonEmptyCheck (extractOperations (chunksConcat (orc.chat s.calls))) =
          false →
        (applyOrRemind orc round pcc agent content s).2.flashcards =
          s.flashcards)) ∧
    ((jsIncludes content "```json" = true ∨
        jsIncludes content "operations" = true) →
      countStarts ((applyOrRemind orc round pcc agent content s).2.events) =
        countStarts s.events) ∧
    (countCsReminders ((initialDraft orc s0).2.events) ≤
      countCsReminders s0.events + 1) ∧
    (((orc.chat s0.calls).fail = false ∧
      jsIncludes (chunksConcat (orc.chat s0.calls)) "```json" = false ∧
      jsIncludes (chunksConcat (orc.chat s0.calls)) "operations" = false) →
        countCsReminders ((initialDraft orc s0).2.events) =
          countCsReminders s0.events + 1 ∧
        (opsTruthyCheck (extractOperations
            (chunksConcat (orc.chat (s0.calls + 1)))) = false →
          (initialDraft orc s0).2.flashcards = s0.flashcards)) ∧
    ((jsIncludes (chunksConcat (orc.chat s0.calls)) "```json" = true ∨
      jsIncludes (chunksConcat (orc.chat s0.calls)) "operations" = true) →
        countCsReminders ((initialDraft orc s0).2.events) =
          countCsReminders s0.events) := by
  obtain ⟨ha1, ha2, ha3⟩ :=
    applyOrRemind_reminder_facts orc round pcc agent content s hagent
  obtain ⟨hb1, hb2, hb3⟩ := initialDraft_reminder_facts orc s0
  exact ⟨ha1, ha2, ha3, hb1, hb2, hb3⟩

/-- Witness for C2 (amended): a marker-free expert-turn content on the one
hand and a marker-free cardsmith draft on the other each admit their
reminder bound at a concrete state. -/
theorem reminder_policy_witness :
    countStarts ((applyOrRemind (scriptedOracle (fun _ => "nothing here")) 0 0
      "explainer" "no block at all" initialState).2.events) ≤
      countStarts initialState.events + 1 ∧
    countCsReminders ((initialDraft (scriptedOracle (fun _ => "nothing here"))
      initialState).2.events) ≤ countCsReminders initialState.events + 1 :=
  ⟨(reminder_policy (scriptedOracle (fun _ => "nothing here")) 0 0 "explainer"
      "no block at all" initialState initialState (by decide)).1,
   (reminder_policy (scriptedOracle (fun _ => "nothing here")) 0 0 "explainer"
      "no block at all" initialState initialState (by decide)).2.2.2.1⟩

end FlashcardGen
